import Mathlib

/-!
# rsh-unbound: the registry-to-unbound synchronisation cycle

A shallow embedding of `main.go`: the strings of the program are byte sequences, the
answers of the outside world (registry download, file write, `systemctl`, the clock read
by the backoff policy) are explicit inputs, and the effects of a cycle are collected in a
trace.
-/

namespace RshUnbound

/-! ## Strings -/

/-- A Go string: an immutable sequence of bytes. -/
abbrev GoString := List (Fin 256)

/-- The conversion `byte(x)`: the low eight bits of an integer. -/
def byte (n : Nat) : Fin 256 := ⟨n % 256, Nat.mod_lt n (by decide)⟩

/-- The newline byte. -/
def newline : Fin 256 := 0x0A

/-- The function `utf8.AppendRune` (the bytes `utf8.EncodeRune` writes): the UTF-8 encoding
of rune `r`, with surrogates and values above `MaxRune` encoded as U+FFFD. -/
def utf8EncodeRune (r : Nat) : GoString :=
  if r ≤ 0x7F then [byte r]
  else if r ≤ 0x7FF then
    [byte (0xC0 ||| (byte (r >>> 6)).val), byte (0x80 ||| ((byte r).val &&& 0x3F))]
  else if 0x10FFFF < r ∨ (0xD800 ≤ r ∧ r ≤ 0xDFFF) then [0xEF, 0xBF, 0xBD]
  else if r ≤ 0xFFFF then
    [byte (0xE0 ||| (byte (r >>> 12)).val), byte (0x80 ||| ((byte (r >>> 6)).val &&& 0x3F)),
     byte (0x80 ||| ((byte r).val &&& 0x3F))]
  else
    [byte (0xF0 ||| (byte (r >>> 18)).val), byte (0x80 ||| ((byte (r >>> 12)).val &&& 0x3F)),
     byte (0x80 ||| ((byte (r >>> 6)).val &&& 0x3F)), byte (0x80 ||| ((byte r).val &&& 0x3F))]

/-- A string literal of the source, as the bytes the Go compiler stores for it. -/
def str (s : String) : GoString := s.toList.flatMap (fun c => utf8EncodeRune c.toNat)

/-- The comparison `a < b` of two Go strings: the first differing byte decides, and a
proper prefix is smaller. -/
def strLess : GoString → GoString → Bool
  | [], [] => false
  | [], _ :: _ => true
  | _ :: _, [] => false
  | a :: as, b :: bs => if a < b then true else if b < a then false else strLess as bs

/-! ## Registry data -/

/-- The struct `registryEntry`: one `PozycjaRejestru` element. -/
structure registryEntry where
  Address : GoString
  deriving DecidableEq

/-- The struct `registry`: the entries of the `Rejestr` document (the `XMLName` field only
steers the decoder and is left out). -/
structure registry where
  Entries : List registryEntry
  deriving DecidableEq

/-! ## Deduplication and sorting (populateConfig, lines 91-101) -/

/-- One iteration of the loop over `entries`: the map `domainSet` (a missing key reads as
`false`) and the slice `domains`. -/
def dedupStep (st : (GoString → Bool) × List GoString) (entry : registryEntry) :
    (GoString → Bool) × List GoString :=
  let addr := entry.Address
  if st.1 addr then st
  else (fun k => if k = addr then true else st.1 k, st.2 ++ [addr])

/-- The loop over `entries`, started with an empty map and an empty slice. -/
def dedupLoop (entries : List registryEntry) : (GoString → Bool) × List GoString :=
  entries.foldl dedupStep (fun _ => false, [])

/-- Insertion of `x` into a list ordered by `less`. -/
def insertSorted {α : Type} (less : α → α → Bool) (x : α) : List α → List α
  | [] => [x]
  | y :: ys => if less x y then x :: y :: ys else y :: insertSorted less x ys

/-- The call `sort.Slice(s, less)`, modelled by insertion sort. For the strict total order
used by populateConfig on pairwise distinct strings the ascending arrangement is unique
(`ascending_unique`), so every correct sort returns this list. -/
def sortSlice {α : Type} (less : α → α → Bool) : List α → List α
  | [] => []
  | x :: xs => insertSorted less x (sortSlice less xs)

/-- The slice `domains` after `sort.Slice(domains, func(i, j) { domains[i] < domains[j] })`. -/
def domains (entries : List registryEntry) : List GoString :=
  sortSlice strLess (dedupLoop entries).2

/-! ## Quoting: the verb `%q` of fmt, which is `strconv.Quote`

The Unicode tables `isPrint16`, `isNotPrint16`, `isPrint32` and `isNotPrint32` that
`strconv.IsPrint` consults for runes above U+00FF are the parameter `isPrintTable`. -/

/-- The table `first` of package utf8, indexed by the first byte of an encoding: `as` (0xF0)
for ASCII, `xx` (0xF1) for an invalid byte, else the accept-range index in the high
nibble and the length in the low one. -/
def first (b : Nat) : Nat :=
  if b ≤ 0x7F then 0xF0
  else if b ≤ 0xC1 then 0xF1
  else if b ≤ 0xDF then 0x02
  else if b = 0xE0 then 0x13
  else if b ≤ 0xEC then 0x03
  else if b = 0xED then 0x23
  else if b ≤ 0xEF then 0x03
  else if b = 0xF0 then 0x34
  else if b ≤ 0xF3 then 0x04
  else if b = 0xF4 then 0x44
  else 0xF1

/-- The table `acceptRanges` of package utf8: the bounds `lo`, `hi` for the second byte. -/
def acceptRanges (i : Nat) : Nat × Nat :=
  match i with
  | 0 => (0x80, 0xBF)
  | 1 => (0xA0, 0xBF)
  | 2 => (0x80, 0x9F)
  | 3 => (0x90, 0xBF)
  | _ => (0x80, 0x8F)

/-- The function `utf8.DecodeRuneInString`: the first rune of `s` and its width in bytes;
`(RuneError, 1)` for an invalid encoding and `(RuneError, 0)` for the empty string. -/
def DecodeRuneInString (s : GoString) : Nat × Nat :=
  match s with
  | [] => (0xFFFD, 0)
  | s0 :: tail0 =>
    let x := first s0.val
    if 0xF0 ≤ x then (if x % 2 = 1 then 0xFFFD else s0.val, 1)
    else
      let sz := x &&& 7
      let accept := acceptRanges (x >>> 4)
      if s.length < sz then (0xFFFD, 1)
      else
        match tail0 with
        | [] => (0xFFFD, 1)
        | s1 :: tail1 =>
          if s1.val < accept.1 ∨ accept.2 < s1.val then (0xFFFD, 1)
          else if sz ≤ 2 then (((s0.val &&& 0x1F) <<< 6) ||| (s1.val &&& 0x3F), 2)
          else
            match tail1 with
            | [] => (0xFFFD, 1)
            | s2 :: tail2 =>
              if s2.val < 0x80 ∨ 0xBF < s2.val then (0xFFFD, 1)
              else if sz ≤ 3 then
                (((s0.val &&& 0x0F) <<< 12) ||| ((s1.val &&& 0x3F) <<< 6) ||| (s2.val &&& 0x3F), 3)
              else
                match tail2 with
                | [] => (0xFFFD, 1)
                | s3 :: _ =>
                  if s3.val < 0x80 ∨ 0xBF < s3.val then (0xFFFD, 1)
                  else
                    (((s0.val &&& 0x07) <<< 18) ||| ((s1.val &&& 0x3F) <<< 12) |||
                      ((s2.val &&& 0x3F) <<< 6) ||| (s3.val &&& 0x3F), 4)

/-- The function `strconv.IsPrint`: the Latin-1 fast path, then the tables. -/
def IsPrint (isPrintTable : Nat → Bool) (r : Nat) : Bool :=
  if r ≤ 0xFF then
    if 0x20 ≤ r ∧ r ≤ 0x7E then true
    else if 0xA1 ≤ r ∧ r ≤ 0xFF then decide (r ≠ 0xAD)
    else false
  else isPrintTable r

/-- The digit `lowerhex[i]`. -/
def lowerhex (i : Nat) : Fin 256 := (str "0123456789abcdef").getD i 0

/-- The function `appendEscapedRune` of strconv for the quote `"`, with `ASCIIonly` and
`graphicOnly` false: the bytes appended for rune `r`. -/
def appendEscapedRune (isPrintTable : Nat → Bool) (r : Nat) : GoString :=
  if r = 0x22 ∨ r = 0x5C then [0x5C, byte r]
  else if IsPrint isPrintTable r then utf8EncodeRune r
  else if r = 0x07 then str "\\a"
  else if r = 0x08 then str "\\b"
  else if r = 0x0C then str "\\f"
  else if r = 0x0A then str "\\n"
  else if r = 0x0D then str "\\r"
  else if r = 0x09 then str "\\t"
  else if r = 0x0B then str "\\v"
  else if r < 0x20 ∨ r = 0x7F then
    str "\\x" ++ [lowerhex ((byte r).val >>> 4), lowerhex ((byte r).val &&& 0xF)]
  else if 0x10FFFF < r ∨ (0xD800 ≤ r ∧ r ≤ 0xDFFF) then
    str "\\u" ++ [lowerhex ((0xFFFD >>> 12) &&& 0xF), lowerhex ((0xFFFD >>> 8) &&& 0xF),
      lowerhex ((0xFFFD >>> 4) &&& 0xF), lowerhex (0xFFFD &&& 0xF)]
  else if r < 0x10000 then
    str "\\u" ++ [lowerhex ((r >>> 12) &&& 0xF), lowerhex ((r >>> 8) &&& 0xF),
      lowerhex ((r >>> 4) &&& 0xF), lowerhex (r &&& 0xF)]
  else
    str "\\U" ++ [lowerhex ((r >>> 28) &&& 0xF), lowerhex ((r >>> 24) &&& 0xF),
      lowerhex ((r >>> 20) &&& 0xF), lowerhex ((r >>> 16) &&& 0xF),
      lowerhex ((r >>> 12) &&& 0xF), lowerhex ((r >>> 8) &&& 0xF),
      lowerhex ((r >>> 4) &&& 0xF), lowerhex (r &&& 0xF)]

/-- The loop of `appendQuotedWith`: while `s` is not empty, decode one rune, append its
escaped form and drop its bytes. Every round drops at least one byte, so `len(s)` rounds
of fuel always suffice (`quoteLoop_fuel`). -/
def quoteLoop (isPrintTable : Nat → Bool) : Nat → GoString → GoString
  | 0, _ => []
  | _ + 1, [] => []
  | fuel + 1, s0 :: tail0 =>
    let rw := if 0x80 ≤ s0.val then DecodeRuneInString (s0 :: tail0) else (s0.val, 1)
    if rw.2 = 1 ∧ rw.1 = 0xFFFD then
      str "\\x" ++ [lowerhex (s0.val >>> 4), lowerhex (s0.val &&& 0xF)] ++
        quoteLoop isPrintTable fuel tail0
    else
      appendEscapedRune isPrintTable rw.1 ++
        quoteLoop isPrintTable fuel ((s0 :: tail0).drop rw.2)

/-- The function `strconv.Quote`, which formats a string operand of `%q`. -/
def Quote (isPrintTable : Nat → Bool) (s : GoString) : GoString :=
  [0x22] ++ quoteLoop isPrintTable s.length s ++ [0x22]

/-! ## Rendering (populateConfig, lines 105-111) -/

/-- The call `fmt.Sprintf("local-zone: %q redirect", domain)`. -/
def zoneLine (isPrintTable : Nat → Bool) (domain : GoString) : GoString :=
  str "local-zone: " ++ Quote isPrintTable domain ++ str " redirect"

/-- The call `fmt.Sprintf("local-data: \"%s A %s\"", domain, flagRedirect)`. -/
def dataLine (domain flagRedirect : GoString) : GoString :=
  str "local-data: \"" ++ domain ++ str " A " ++ flagRedirect ++ str "\""

/-- The slice `configLines`: allocated with `len(domains)*2` empty strings, then filled at
the indices `i*2` and `i*2+1` for every domain. -/
def configLines (isPrintTable : Nat → Bool) (ds : List GoString) (flagRedirect : GoString) :
    List GoString :=
  ds.enum.foldl
    (fun lines p =>
      (lines.set (p.1 * 2) (zoneLine isPrintTable p.2)).set (p.1 * 2 + 1)
        (dataLine p.2 flagRedirect))
    (List.replicate (ds.length * 2) [])

/-- The function `strings.Join`. -/
def Join : List GoString → GoString → GoString
  | [], _ => []
  | [a], _ => a
  | a :: b :: rest, sep => a ++ sep ++ Join (b :: rest) sep

/-- The string `config`: the lines joined with a newline. -/
def config (isPrintTable : Nat → Bool) (ds : List GoString) (flagRedirect : GoString) :
    GoString :=
  Join (configLines isPrintTable ds flagRedirect) (str "\n")

/-! ## Lines of a text -/

/-- The pieces of a text between its newline bytes (`strings.Split(t, "\n")`). -/
def splitLines : GoString → List GoString
  | [] => [[]]
  | b :: t =>
    if b = newline then [] :: splitLines t
    else
      match splitLines t with
      | [] => [[b]]
      | l :: ls => (b :: l) :: ls

/-- The lines of a text: its newline-separated pieces, none for the empty text. -/
def lines (t : GoString) : List GoString :=
  if t = [] then [] else splitLines t

/-- The number of lines of a text. -/
def lineCount (t : GoString) : Nat := (lines t).length

/-- A byte that `%q` copies unchanged: printable ASCII other than the double quote and the
backslash. -/
def plainByte (b : Fin 256) : Prop :=
  0x20 ≤ b.val ∧ b.val ≤ 0x7E ∧ b.val ≠ 0x22 ∧ b.val ≠ 0x5C

instance plainByte_decidable (b : Fin 256) : Decidable (plainByte b) := by
  unfold plainByte
  infer_instance

/-- A rune that `%q` copies unchanged: a Unicode scalar value that `strconv.IsPrint`
accepts and that is neither the double quote nor the backslash. -/
def plainRune (isPrintTable : Nat → Bool) (r : Nat) : Prop :=
  r ≤ 0x10FFFF ∧ ¬ (0xD800 ≤ r ∧ r ≤ 0xDFFF) ∧ IsPrint isPrintTable r = true ∧
    r ≠ 0x22 ∧ r ≠ 0x5C

instance plainRune_decidable (isPrintTable : Nat → Bool) (r : Nat) :
    Decidable (plainRune isPrintTable r) := by
  unfold plainRune
  infer_instance

/-! ## The outside world

The program talks to the registry (`http.Get`, `ioutil.ReadAll`, `xml.Unmarshal`), to the
file system (`ioutil.WriteFile`), to `systemctl` and to the clock of the backoff policy.
What they answer is an input of the model; what the program asks of them is recorded. -/

/-- What the registry side answers to the calls of one `getList`. -/
inductive Download where
  /-- The call `http.Get(flagRegister)` returns an error. -/
  | connectFailed (err : String)
  /-- The call `ioutil.ReadAll(resp.Body)` returns an error. -/
  | readFailed (err : String)
  /-- The call `xml.Unmarshal` returns an error, having decoded `decoded` so far. -/
  | parseFailed (err : String) (decoded : registry)
  /-- The call `xml.Unmarshal` succeeds and fills in `reg`. -/
  | parsed (reg : registry)
  deriving DecidableEq

/-- What the file system answers to one `ioutil.WriteFile(flagOutput, data, 0644)`. -/
inductive WriteOutcome where
  /-- The call returns nil: the file holds exactly `data`. -/
  | written
  /-- The call returns an error and leaves `left` in the file (`none`: there is no file). -/
  | failed (err : String) (left : Option GoString)
  deriving DecidableEq

/-- One external call made by the program. -/
inductive Effect where
  /-- One call of `getList`, with the answer it got. -/
  | fetch (d : Download)
  /-- One call of `ioutil.WriteFile` with the bytes `data`, and the answer it got. -/
  | write (data : GoString) (o : WriteOutcome)
  /-- One run of `systemctl reload unbound`, with the error of `cmd.Run()`. -/
  | reload (err : Option String)
  deriving DecidableEq

/-- The severity of a glog line. -/
inductive Severity where
  | info
  | error
  deriving DecidableEq

/-- The state outside the program's variables: the file at `flagOutput`, the external
calls made so far (oldest first) and the glog output. -/
structure World where
  file : Option GoString
  effects : List Effect
  log : List (Severity × String)
  deriving DecidableEq

/-- The calls `glog.Info` and `glog.Infof`. -/
def World.info (w : World) (msg : String) : World :=
  { w with log := w.log ++ [(Severity.info, msg)] }

/-- The calls `glog.Error` and `glog.Errorf`. -/
def World.error (w : World) (msg : String) : World :=
  { w with log := w.log ++ [(Severity.error, msg)] }

/-- Recording of an external call. -/
def World.emit (w : World) (e : Effect) : World :=
  { w with effects := w.effects ++ [e] }

/-! ## getList (lines 47-70) -/

/-- The function `getList`: the registry and the error it returns (`none` is nil), for
each answer of the registry side. -/
def getList : Download → registry × Option String
  | .connectFailed err => (⟨[]⟩, some ("while connecting to registry: " ++ err))
  | .readFailed err => (⟨[]⟩, some ("while downloading registry: " ++ err))
  | .parseFailed err decoded => (decoded, some ("while parsing registry: " ++ err))
  | .parsed reg =>
    if reg.Entries.length = 0 then (reg, some "zero results in registry")
    else (reg, none)

/-! ## Retrying (package github.com/cenkalti/backoff)

The package is a dependency of the program and not part of its source file. The model
follows the package as published under this import path: `NewExponentialBackOff` fills in
the package defaults, `NextBackOff` returns `Stop` once the time elapsed since `Reset`
exceeds a non-zero `MaxElapsedTime`, and `Retry` calls the operation until it returns nil
or `NextBackOff` returns `Stop`. Durations are in nanoseconds. The interval slept between
two attempts (randomised, growing by `Multiplier` up to `MaxInterval`) shows in the model
only through the clock readings, which are inputs. -/

/-- The integer fields of the struct `ExponentialBackOff`. -/
structure ExponentialBackOff where
  InitialInterval : Nat
  MaxInterval : Nat
  MaxElapsedTime : Nat
  deriving DecidableEq

/-- The function `NewExponentialBackOff`: `DefaultInitialInterval` (500 ms),
`DefaultMaxInterval` (60 s) and `DefaultMaxElapsedTime` (15 min). -/
def NewExponentialBackOff : ExponentialBackOff :=
  { InitialInterval := 500 * 1000000
    MaxInterval := 60 * 1000000000
    MaxElapsedTime := 15 * 60 * 1000000000 }

/-- Whether `NextBackOff` returns `Stop` when the elapsed time it reads is `elapsed`. -/
def ExponentialBackOff.stops (b : ExponentialBackOff) (elapsed : Nat) : Bool :=
  b.MaxElapsedTime != 0 && decide (b.MaxElapsedTime < elapsed)

/-- The state and the return value of a `Retry`; `result = none` when the answers ran out
while `Retry` was still looping. -/
structure RetryResult (σ : Type) where
  state : σ
  result : Option (Option String)

/-- The function `backoff.Retry(operation, b)`. The operation acts on the state `σ` (the
variables its closure captures, and the world) and returns its error. Each element of the
list is the world's answer to one attempt, with the elapsed time since `Reset` that
`NextBackOff` compares with `MaxElapsedTime` after that attempt if it fails. -/
def Retry {σ ι : Type} (operation : σ → ι → σ × Option String) (b : ExponentialBackOff) :
    σ → List (ι × Nat) → RetryResult σ
  | st, [] => ⟨st, none⟩
  | st, (answer, elapsed) :: rest =>
    match operation st answer with
    | (st', none) => ⟨st', some none⟩
    | (st', some err) =>
      if b.stops elapsed then ⟨st', some (some err)⟩ else Retry operation b st' rest

/-! ## populateConfig (lines 72-127) -/

/-- The answers of the outside world during one cycle. -/
structure CycleAnswers where
  fetches : List (Download × Nat)
  writes : List (WriteOutcome × Nat)
  reload : Option String

/-- How a call ended. -/
inductive Outcome where
  /-- The answers ran out inside a `Retry`: the call has not returned. -/
  | retrying
  /-- The call returned this error (`none` is nil). -/
  | returned (err : Option String)
  deriving DecidableEq

/-- The first closure `operation`: one `getList`; it assigns the captured variable
`entries` only on success. -/
def fetchOperation (st : World × List registryEntry) (d : Download) :
    (World × List registryEntry) × Option String :=
  let w := (st.1.info "Trying to download registry...").emit (.fetch d)
  match getList d with
  | (_, some err) => ((w.error ("Could not get registry: " ++ err), st.2), some err)
  | (reg, none) => ((w, reg.Entries), none)

/-- The second closure `operation`: one `ioutil.WriteFile(flagOutput, []byte(config), 0644)`. -/
def writeOperation (config : GoString) (w : World) (o : WriteOutcome) :
    World × Option String :=
  let w := (w.info "Trying to write config...").emit (.write config o)
  match o with
  | .written => ({ w with file := some config }, none)
  | .failed err left =>
    ({ w with file := left }.error ("Could not write config: " ++ err), some err)

/-- The function `populateConfig`. -/
def populateConfig (isPrintTable : Nat → Bool) (flagRedirect : GoString) (w : World)
    (a : CycleAnswers) : World × Outcome :=
  let r1 := Retry fetchOperation NewExponentialBackOff (w, []) a.fetches
  match r1.result with
  | none => (r1.state.1, .retrying)
  | some (some err) => (r1.state.1, .returned (some ("while populating config: " ++ err)))
  | some none =>
    let entries := r1.state.2
    let w1 := r1.state.1.info ("Got registry: " ++ toString entries.length ++ " entries")
    let ds := domains entries
    let w2 := w1.info ("After deduplication: " ++ toString ds.length ++ " entries")
    let r2 := Retry (writeOperation (config isPrintTable ds flagRedirect))
      NewExponentialBackOff w2 a.writes
    match r2.result with
    | none => (r2.state, .retrying)
    | some (some err) => (r2.state, .returned (some ("while populating config: " ++ err)))
    | some none => (r2.state, .returned none)

/-! ## reloadUnbound, run and main (lines 129-180) -/

/-- The function `reloadUnbound`: one run of `systemctl reload unbound`. -/
def reloadUnbound (w : World) (answer : Option String) : World × Option String :=
  (w.emit (.reload answer), answer)

/-- The body of `case <-ticker.C` in `run`. The flag tells whether the loop goes on: it is
false when populateConfig has not returned. -/
def periodicCycle (isPrintTable : Nat → Bool) (flagRedirect : GoString) (w : World)
    (a : CycleAnswers) : World × Bool :=
  let w0 := w.info "Starting periodic config update..."
  match populateConfig isPrintTable flagRedirect w0 a with
  | (w1, .retrying) => (w1, false)
  | (w1, .returned (some err)) => (w1.error err, true)
  | (w1, .returned none) =>
    let w2 := w1.info "Periodic config update done. Reloading unbound."
    let w3 := (reloadUnbound w2 a.reload).1
    (w3.info "Unbound reloaded.", true)

/-- What the `select` of `run` receives. -/
inductive Signal where
  /-- The channel `ctx.Done()` is ready. -/
  | done
  /-- The ticker fires; the cycle it starts gets these answers. -/
  | tick (a : CycleAnswers)

/-- Where `run` is when the signals are used up. -/
inductive RunStatus where
  /-- The function returned after `ctx.Done()`. -/
  | stopped
  /-- The function blocks in `select`. -/
  | waiting
  /-- The function is inside a populateConfig that has not returned. -/
  | retrying
  deriving DecidableEq

/-- The function `run`. -/
def run (isPrintTable : Nat → Bool) (flagRedirect : GoString) :
    World → List Signal → World × RunStatus
  | w, [] => (w, .waiting)
  | w, .done :: _ => (w.info "Stoppping runner.", .stopped)
  | w, .tick a :: rest =>
    match periodicCycle isPrintTable flagRedirect w a with
    | (w', false) => (w', .retrying)
    | (w', true) => run isPrintTable flagRedirect w' rest

/-- The startup cycle of `main`, from "Starting up..." to "Initial config update done.".
The flag is false when populateConfig has not returned. -/
def startupCycle (isPrintTable : Nat → Bool) (flagRedirect : GoString) (w : World)
    (a : CycleAnswers) : World × Bool :=
  let w0 := w.info "Starting up..."
  match populateConfig isPrintTable flagRedirect w0 a with
  | (w1, .retrying) => (w1, false)
  | (w1, .returned (some err)) =>
    (((w1.error ("While populating config at startup: " ++ err)).error
      "Continuing anyway...").info "Initial config update done.", true)
  | (w1, .returned none) =>
    match reloadUnbound w1 a.reload with
    | (w2, some err) =>
      (((w2.error ("While reloading unbound at startup: " ++ err)).error
        "Continuing anyway...").info "Initial config update done.", true)
    | (w2, none) => (w2.info "Initial config update done.", true)

/-- The function `main` after `flag.Parse()`, started with `file` in the output file: the
startup cycle, then `run` (in its goroutine, while `main` blocks in `select {}`) with a
context that is never done. -/
def main (isPrintTable : Nat → Bool) (flagRedirect : GoString) (file : Option GoString)
    (startup : CycleAnswers) (ticks : List CycleAnswers) : World × RunStatus :=
  match startupCycle isPrintTable flagRedirect { file := file, effects := [], log := [] }
    startup with
  | (w', false) => (w', .retrying)
  | (w', true) => run isPrintTable flagRedirect w' (ticks.map Signal.tick)

/-! ## Properties of a cycle -/

/-- The effects `fs`, `ws`, `rs` of one cycle are in stage order: `fs` are fetches, `ws`
writes, `rs` at most one reload; there is a write only after a fetch that succeeded, and a
reload only after a write that succeeded. -/
def StagesInOrder (fs ws rs : List Effect) : Prop :=
  (∀ e ∈ fs, ∃ d, e = Effect.fetch d) ∧
  (∀ e ∈ ws, ∃ data o, e = Effect.write data o) ∧
  (rs = [] ∨ ∃ err, rs = [Effect.reload err]) ∧
  (ws ≠ [] → ∃ d, fs.getLast? = some (Effect.fetch d) ∧ (getList d).2 = none) ∧
  (rs ≠ [] → ∃ data, ws.getLast? = some (Effect.write data WriteOutcome.written))

/-- The reload of a cycle: made once when populateConfig returned nil, else not at all. -/
def reloadEffects (o : Outcome) (answer : Option String) : List Effect :=
  match o with
  | .returned none => [Effect.reload answer]
  | _ => []

/-- The answers of a cycle in which the registry holds the single address a.pl, the write
succeeds and `systemctl` fails. -/
def reloadFailsAnswers : CycleAnswers :=
  { fetches := [(.parsed ⟨[⟨str "a.pl"⟩]⟩, 0)]
    writes := [(.written, 0)]
    reload := some "exit status 1" }

/-- A text rendered from the domain list of a registry with at least one entry. -/
def RenderedFromEntries (isPrintTable : Nat → Bool) (flagRedirect data : GoString) : Prop :=
  ∃ entries : List registryEntry, entries ≠ [] ∧ domains entries ≠ [] ∧
    data = config isPrintTable (domains entries) flagRedirect

/-! ## Theorems -/

/-! ### The order on strings -/

theorem strLess_irrefl (a : GoString) : strLess a a = false := by
  induction a with
  | nil => rfl
  | cons x xs ih => simp [strLess, ih]

theorem strLess_trans : ∀ a b c : GoString,
    strLess a b = true → strLess b c = true → strLess a c = true
  | [], [], _, h, _ => by simp [strLess] at h
  | [], _ :: _, [], _, h => by simp [strLess] at h
  | [], _ :: _, _ :: _, _, _ => by simp [strLess]
  | _ :: _, [], _, h, _ => by simp [strLess] at h
  | _ :: _, _ :: _, [], _, h => by simp [strLess] at h
  | x :: xs, y :: ys, z :: zs, h₁, h₂ => by
    simp only [strLess] at h₁ h₂ ⊢
    by_cases hxy : x < y
    · by_cases hyz : y < z
      · simp [lt_trans hxy hyz]
      · by_cases hzy : z < y
        · simp [hyz, hzy] at h₂
        · have : y = z := le_antisymm (not_lt.mp hzy) (not_lt.mp hyz)
          subst this
          simp [hxy]
    · by_cases hyx : y < x
      · simp [hxy, hyx] at h₁
      · have hxy' : x = y := le_antisymm (not_lt.mp hyx) (not_lt.mp hxy)
        subst hxy'
        simp only [hxy, if_false] at h₁
        by_cases hxz : x < z
        · simp [hxz]
        · by_cases hzx : z < x
          · simp [hxz, hzx] at h₂
          · simp only [hxz, hzx, if_false] at h₂ ⊢
            exact strLess_trans xs ys zs h₁ h₂

theorem strLess_total : ∀ a b : GoString,
    strLess a b = false → strLess b a = false → a = b
  | [], [], _, _ => rfl
  | [], _ :: _, h, _ => by simp [strLess] at h
  | _ :: _, [], _, h => by simp [strLess] at h
  | x :: xs, y :: ys, h₁, h₂ => by
    simp only [strLess] at h₁ h₂
    by_cases hxy : x < y
    · simp [hxy] at h₁
    · by_cases hyx : y < x
      · simp [hyx] at h₂
      · have hxy' : x = y := le_antisymm (not_lt.mp hyx) (not_lt.mp hxy)
        subst hxy'
        simp only [hxy, if_false] at h₁ h₂
        rw [strLess_total xs ys h₁ h₂]

theorem strLess_asymm (a b : GoString) (h : strLess a b = true) : strLess b a = false := by
  cases hba : strLess b a with
  | false => rfl
  | true =>
    have := strLess_trans a b a h hba
    rw [strLess_irrefl] at this
    exact absurd this (by decide)

/-! ### Deduplication -/

theorem dedup_fold (entries : List registryEntry) :
    ∀ st : (GoString → Bool) × List GoString,
      (∀ k, st.1 k = true ↔ k ∈ st.2) → st.2.Nodup →
      (∀ k, (entries.foldl dedupStep st).1 k = true ↔ k ∈ (entries.foldl dedupStep st).2) ∧
      (entries.foldl dedupStep st).2.Nodup ∧
      ∀ k, k ∈ (entries.foldl dedupStep st).2 ↔ k ∈ st.2 ∨ ∃ e ∈ entries, e.Address = k := by
  induction entries with
  | nil => intro st hm hn; simp [hm, hn]
  | cons e es ih =>
    intro st hm hn
    rw [List.foldl_cons]
    by_cases hseen : st.1 e.Address = true
    · have hstep : dedupStep st e = st := by simp [dedupStep, hseen]
      rw [hstep]
      obtain ⟨h1, h2, h3⟩ := ih st hm hn
      refine ⟨h1, h2, fun k => ?_⟩
      rw [h3 k]
      constructor
      · rintro (h | ⟨x, hx, rfl⟩)
        · exact Or.inl h
        · exact Or.inr ⟨x, List.mem_cons_of_mem _ hx, rfl⟩
      · rintro (h | ⟨x, hx, rfl⟩)
        · exact Or.inl h
        · rcases List.mem_cons.mp hx with rfl | hx
          · exact Or.inl ((hm _).mp hseen)
          · exact Or.inr ⟨x, hx, rfl⟩
    · have hstep : dedupStep st e =
          (fun k => if k = e.Address then true else st.1 k, st.2 ++ [e.Address]) := by
        simp [dedupStep, hseen]
      rw [hstep]
      have hnot : e.Address ∉ st.2 := fun h => hseen ((hm _).mpr h)
      have hm' : ∀ k, (if k = e.Address then true else st.1 k) = true ↔
          k ∈ st.2 ++ [e.Address] := by
        intro k
        by_cases hk : k = e.Address
        · simp [hk]
        · simp [hk, hm k]
      have hn' : (st.2 ++ [e.Address]).Nodup := by
        rw [List.nodup_append]
        refine ⟨hn, List.nodup_singleton _, ?_⟩
        intro a ha hb
        rw [List.mem_singleton] at hb
        exact hnot (hb ▸ ha)
      obtain ⟨h1, h2, h3⟩ := ih (fun k => if k = e.Address then true else st.1 k,
        st.2 ++ [e.Address]) hm' hn'
      refine ⟨h1, h2, fun k => ?_⟩
      rw [h3 k]
      constructor
      · rintro (h | ⟨x, hx, rfl⟩)
        · rcases List.mem_append.mp h with h | h
          · exact Or.inl h
          · exact Or.inr ⟨e, List.mem_cons_self _ _, (List.mem_singleton.mp h).symm⟩
        · exact Or.inr ⟨x, List.mem_cons_of_mem _ hx, rfl⟩
      · rintro (h | ⟨x, hx, rfl⟩)
        · exact Or.inl (List.mem_append_left _ h)
        · rcases List.mem_cons.mp hx with rfl | hx
          · exact Or.inl (List.mem_append_right _ (List.mem_singleton_self _))
          · exact Or.inr ⟨x, hx, rfl⟩

theorem dedupLoop_nodup (entries : List registryEntry) : (dedupLoop entries).2.Nodup :=
  (dedup_fold entries (fun _ => false, []) (by simp) List.nodup_nil).2.1

theorem mem_dedupLoop (entries : List registryEntry) (k : GoString) :
    k ∈ (dedupLoop entries).2 ↔ ∃ e ∈ entries, e.Address = k := by
  have h := (dedup_fold entries (fun _ => false, []) (by simp) List.nodup_nil).2.2 k
  simpa [dedupLoop] using h

/-! ### Sorting -/

theorem insertSorted_perm {α : Type} (less : α → α → Bool) (x : α) (l : List α) :
    (insertSorted less x l).Perm (x :: l) := by
  induction l with
  | nil => exact List.Perm.refl _
  | cons y ys ih =>
    by_cases h : less x y = true
    · simp [insertSorted, h]
    · simp only [insertSorted, h]
      exact (List.Perm.cons y ih).trans (List.Perm.swap x y ys)

theorem sortSlice_perm {α : Type} (less : α → α → Bool) (l : List α) :
    (sortSlice less l).Perm l := by
  induction l with
  | nil => exact List.Perm.refl _
  | cons x xs ih =>
    exact (insertSorted_perm less x (sortSlice less xs)).trans (List.Perm.cons x ih)

theorem insertSorted_notGreater (x : GoString) (l : List GoString)
    (hl : l.Pairwise (fun a b => strLess b a = false)) :
    (insertSorted strLess x l).Pairwise (fun a b => strLess b a = false) := by
  induction l with
  | nil => simp [insertSorted]
  | cons y ys ih =>
    rw [List.pairwise_cons] at hl
    by_cases h : strLess x y = true
    · simp only [insertSorted, h, if_true]
      refine List.pairwise_cons.mpr ⟨?_, List.pairwise_cons.mpr hl⟩
      intro z hz
      rcases List.mem_cons.mp hz with rfl | hz
      · exact strLess_asymm _ _ h
      · cases hzx : strLess z x with
        | false => rfl
        | true =>
          have := strLess_trans z x y hzx h
          rw [hl.1 z hz] at this
          exact absurd this (by decide)
    · simp only [insertSorted, h]
      refine List.pairwise_cons.mpr ⟨?_, ih hl.2⟩
      intro z hz
      rcases List.mem_cons.mp ((insertSorted_perm strLess x ys).subset hz) with rfl | hz
      · simpa using h
      · exact hl.1 z hz

theorem sortSlice_notGreater (l : List GoString) :
    (sortSlice strLess l).Pairwise (fun a b => strLess b a = false) := by
  induction l with
  | nil => simp [sortSlice]
  | cons x xs ih => exact insertSorted_notGreater x _ ih

theorem sortSlice_ascending (l : List GoString) (hl : l.Nodup) :
    (sortSlice strLess l).Pairwise (fun a b => strLess a b = true) := by
  have hn : (sortSlice strLess l).Nodup := (sortSlice_perm strLess l).nodup_iff.mpr hl
  have hp := (sortSlice_notGreater l).and hn
  refine hp.imp ?_
  rintro a b ⟨hba, hne⟩
  cases hab : strLess a b with
  | true => rfl
  | false => exact absurd (strLess_total a b hab hba) hne

theorem ascending_unique (l₁ l₂ : List GoString) (hp : l₁.Perm l₂)
    (h₁ : l₁.Pairwise (fun a b => strLess a b = true))
    (h₂ : l₂.Pairwise (fun a b => strLess a b = true)) : l₁ = l₂ := by
  haveI : IsAntisymm GoString (fun a b => strLess a b = true) :=
    ⟨fun a b hab hba => by
      rw [strLess_asymm a b hab] at hba
      exact absurd hba (by decide)⟩
  exact List.eq_of_perm_of_sorted hp h₁ h₂

theorem domains_pairwise (entries : List registryEntry) :
    (domains entries).Pairwise (fun a b => strLess a b = true) :=
  sortSlice_ascending _ (dedupLoop_nodup entries)

theorem mem_domains (entries : List registryEntry) (s : GoString) :
    s ∈ domains entries ↔ ∃ e ∈ entries, e.Address = s := by
  unfold domains
  rw [(sortSlice_perm strLess _).mem_iff, mem_dedupLoop]

theorem domains_nodup (entries : List registryEntry) : (domains entries).Nodup :=
  (sortSlice_perm strLess _).nodup_iff.mpr (dedupLoop_nodup entries)

theorem domains_ne_nil (entries : List registryEntry) (h : entries ≠ []) :
    domains entries ≠ [] := by
  cases entries with
  | nil => exact absurd rfl h
  | cons e es =>
    have : e.Address ∈ domains (e :: es) :=
      (mem_domains _ _).mpr ⟨e, List.mem_cons_self _ _, rfl⟩
    exact List.ne_nil_of_mem this

/-! ### The canonical domain list (C1, C2, C3) -/

/-- C1: the domain list populateConfig builds from any list of registry entries is strictly
ascending in byte-wise order: each element is smaller than the next one (and than every
later one), so the list is sorted and holds no string twice. -/
theorem domains_strictly_ascending (entries : List registryEntry) :
    (domains entries).Chain' (fun a b => strLess a b = true) ∧
    (domains entries).Pairwise (fun a b => strLess a b = true) ∧
    (domains entries).Nodup := by
  exact ⟨List.Pairwise.chain' (domains_pairwise entries), domains_pairwise entries,
    domains_nodup entries⟩

/-- C2: a string is in the domain list exactly when some entry has that very Address; no
address is dropped, none is invented, and addresses that differ only in case or in
surrounding whitespace stay distinct domains. -/
theorem domains_mem_iff_address (entries : List registryEntry) (s : GoString) :
    (s ∈ domains entries ↔ ∃ e ∈ entries, e.Address = s) ∧
    domains [⟨str "a.pl"⟩, ⟨str "A.pl"⟩, ⟨str " a.pl"⟩, ⟨str "a.pl "⟩] =
      [str " a.pl", str "A.pl", str "a.pl", str "a.pl "] :=
  ⟨mem_domains entries s, by decide⟩

/-- C3: two entry lists with the same multiset of addresses give the same domain list, and
the addresses b, a, b give exactly a, b. -/
theorem domains_perm_invariant (e₁ e₂ : List registryEntry)
    (h : (e₁.map registryEntry.Address).Perm (e₂.map registryEntry.Address)) :
    domains e₁ = domains e₂ ∧
    domains [⟨str "b"⟩, ⟨str "a"⟩, ⟨str "b"⟩] = [str "a", str "b"] := by
  refine ⟨?_, by decide⟩
  apply ascending_unique _ _ _ (domains_pairwise e₁) (domains_pairwise e₂)
  rw [List.perm_ext_iff_of_nodup (domains_nodup e₁) (domains_nodup e₂)]
  intro s
  rw [mem_domains, mem_domains]
  have hm : ∀ es : List registryEntry,
      (∃ e ∈ es, e.Address = s) ↔ s ∈ es.map registryEntry.Address := by
    intro es; simp [List.mem_map]
  rw [hm, hm, h.mem_iff]

theorem domains_perm_invariant_witness :
    domains [⟨str "b"⟩, ⟨str "a"⟩, ⟨str "b"⟩] = domains [⟨str "a"⟩, ⟨str "b"⟩, ⟨str "b"⟩] ∧
    domains [⟨str "b"⟩, ⟨str "a"⟩, ⟨str "b"⟩] = [str "a", str "b"] :=
  domains_perm_invariant [⟨str "b"⟩, ⟨str "a"⟩, ⟨str "b"⟩] [⟨str "a"⟩, ⟨str "b"⟩, ⟨str "b"⟩]
    (by decide)

/-! ### Quoting -/

set_option maxRecDepth 100000 in
theorem encoded_byte_ne_newline : ∀ b : Fin 256,
    byte (0xC0 ||| b.val) ≠ newline ∧ byte (0xE0 ||| b.val) ≠ newline ∧
    byte (0xF0 ||| b.val) ≠ newline ∧ byte (0x80 ||| (b.val &&& 0x3F)) ≠ newline := by
  decide

theorem byte_ne_newline (r : Nat) (h : r ≤ 0x7F) (hr : r ≠ 10) : byte r ≠ newline := by
  intro hb
  have := congrArg Fin.val hb
  simp only [byte, newline] at this
  have h10 : ((0x0A : Fin 256) : Nat) = 10 := rfl
  rw [h10] at this
  omega

theorem utf8EncodeRune_no_newline (r : Nat) (hr : r ≠ 10) : newline ∉ utf8EncodeRune r := by
  have e := encoded_byte_ne_newline
  have hfffd : newline ∉ ([0xEF, 0xBF, 0xBD] : GoString) := by decide
  unfold utf8EncodeRune
  split_ifs with h1 h2 h3 h4
  · simpa using (byte_ne_newline r h1 hr).symm
  · simp only [List.mem_cons, List.mem_singleton, List.not_mem_nil, or_false, not_or]
    exact ⟨fun h => (e _).1 h.symm, fun h => (e _).2.2.2 h.symm⟩
  · exact hfffd
  · simp only [List.mem_cons, List.mem_singleton, List.not_mem_nil, or_false, not_or]
    exact ⟨fun h => (e _).2.1 h.symm, fun h => (e _).2.2.2 h.symm, fun h => (e _).2.2.2 h.symm⟩
  · simp only [List.mem_cons, List.mem_singleton, List.not_mem_nil, or_false, not_or]
    exact ⟨fun h => (e _).2.2.1 h.symm, fun h => (e _).2.2.2 h.symm,
      fun h => (e _).2.2.2 h.symm, fun h => (e _).2.2.2 h.symm⟩

theorem lowerhex_ne_newline (i : Nat) : lowerhex i ≠ newline := by
  unfold lowerhex
  by_cases h : i < 16
  · interval_cases i <;> decide
  · rw [List.getD_eq_default _ _ (by simpa using (show (str "0123456789abcdef").length ≤ i from
      (show (str "0123456789abcdef").length = 16 from rfl) ▸ (not_lt.mp h)))]
    decide

theorem not_mem_ite {c : Prop} [Decidable c] {x : Fin 256} {a b : GoString}
    (ha : x ∉ a) (hb : x ∉ b) : x ∉ (if c then a else b) := by
  split_ifs <;> assumption

theorem appendEscapedRune_no_newline (t : Nat → Bool) (r : Nat) :
    newline ∉ appendEscapedRune t r := by
  have hx : ∀ a b : Nat, newline ∉ str "\\x" ++ [lowerhex a, lowerhex b] := by
    intro a b h
    rcases List.mem_append.mp h with h | h
    · exact absurd h (by decide)
    · simp only [List.mem_cons, List.mem_singleton, List.not_mem_nil, or_false] at h
      rcases h with h | h
      · exact lowerhex_ne_newline a h.symm
      · exact lowerhex_ne_newline b h.symm
  have hu : ∀ a b c d : Nat,
      newline ∉ str "\\u" ++ [lowerhex a, lowerhex b, lowerhex c, lowerhex d] := by
    intro a b c d h
    rcases List.mem_append.mp h with h | h
    · exact absurd h (by decide)
    · simp only [List.mem_cons, List.mem_singleton, List.not_mem_nil, or_false] at h
      rcases h with h | h | h | h <;> exact lowerhex_ne_newline _ h.symm
  have hU : ∀ a b c d a' b' c' d' : Nat,
      newline ∉ str "\\U" ++ [lowerhex a, lowerhex b, lowerhex c, lowerhex d,
        lowerhex a', lowerhex b', lowerhex c', lowerhex d'] := by
    intro a b c d a' b' c' d' h
    rcases List.mem_append.mp h with h | h
    · exact absurd h (by decide)
    · simp only [List.mem_cons, List.mem_singleton, List.not_mem_nil, or_false] at h
      rcases h with h | h | h | h | h | h | h | h <;> exact lowerhex_ne_newline _ h.symm
  by_cases h10 : r = 10
  · subst h10
    have : appendEscapedRune t 10 = str "\\n" := by
      simp [appendEscapedRune, IsPrint]
    rw [this]
    decide
  · unfold appendEscapedRune
    by_cases c1 : r = 0x22 ∨ r = 0x5C
    · rw [if_pos c1]
      rcases c1 with rfl | rfl <;> decide
    · rw [if_neg c1]
      refine not_mem_ite (utf8EncodeRune_no_newline r h10) ?_
      repeat' apply not_mem_ite
      all_goals first
        | decide
        | exact hx _ _
        | exact hu _ _ _ _
        | exact hU _ _ _ _ _ _ _ _

theorem quoteLoop_no_newline (t : Nat → Bool) :
    ∀ (fuel : Nat) (s : GoString), newline ∉ quoteLoop t fuel s := by
  intro fuel
  induction fuel with
  | zero => intro s; cases s <;> simp [quoteLoop]
  | succ n ih =>
    intro s
    cases s with
    | nil => simp [quoteLoop]
    | cons s0 tail0 =>
      simp only [quoteLoop]
      generalize (if 0x80 ≤ s0.val then DecodeRuneInString (s0 :: tail0) else (s0.val, 1)) = rw
      split_ifs with hc
      · intro h
        rcases List.mem_append.mp h with h | h
        · rcases List.mem_append.mp h with h | h
          · exact absurd h (by decide)
          · simp only [List.mem_cons, List.mem_singleton, List.not_mem_nil, or_false] at h
            rcases h with h | h <;> exact lowerhex_ne_newline _ h.symm
        · exact ih _ h
      · intro h
        rcases List.mem_append.mp h with h | h
        · exact appendEscapedRune_no_newline t _ h
        · exact ih _ h

theorem Quote_no_newline (t : Nat → Bool) (s : GoString) : newline ∉ Quote t s := by
  unfold Quote
  intro h
  rcases List.mem_append.mp h with h | h
  · rcases List.mem_append.mp h with h | h
    · exact absurd h (by decide)
    · exact quoteLoop_no_newline t _ _ h
  · exact absurd h (by decide)

theorem DecodeRuneInString_width_pos (s0 : Fin 256) (tail0 : GoString) :
    1 ≤ (DecodeRuneInString (s0 :: tail0)).2 := by
  unfold DecodeRuneInString
  simp only []
  repeat' split
  all_goals simp

theorem quoteLoop_fuel (t : Nat → Bool) :
    ∀ (f₁ f₂ : Nat) (s : GoString), s.length ≤ f₁ → s.length ≤ f₂ →
      quoteLoop t f₁ s = quoteLoop t f₂ s := by
  intro f₁
  induction f₁ with
  | zero =>
    intro f₂ s h₁ _
    have hs : s = [] := List.length_eq_zero.mp (Nat.le_zero.mp h₁)
    subst hs
    cases f₂ <;> rfl
  | succ n₁ ih =>
    intro f₂ s h₁ h₂
    cases s with
    | nil => cases f₂ <;> rfl
    | cons s0 tail0 =>
      cases f₂ with
      | zero => simp at h₂
      | succ n₂ =>
        have hl₁ : tail0.length ≤ n₁ := by simpa using h₁
        have hl₂ : tail0.length ≤ n₂ := by simpa using h₂
        have hw : 1 ≤ (if 0x80 ≤ s0.val then DecodeRuneInString (s0 :: tail0)
            else (s0.val, 1)).2 := by
          split_ifs
          · exact DecodeRuneInString_width_pos s0 tail0
          · exact le_refl 1
        have hd : ((s0 :: tail0).drop (if 0x80 ≤ s0.val then DecodeRuneInString (s0 :: tail0)
            else (s0.val, 1)).2).length ≤ tail0.length := by
          rw [List.length_drop, List.length_cons]
          omega
        simp only [quoteLoop]
        rw [ih n₂ tail0 hl₁ hl₂, ih n₂ _ (le_trans hd hl₁) (le_trans hd hl₂)]

theorem appendEscapedRune_plain (t : Nat → Bool) (b : Fin 256) (hb : plainByte b) :
    appendEscapedRune t b.val = [b] := by
  obtain ⟨h1, h2, h3, h4⟩ := hb
  have hp : IsPrint t b.val = true := by
    unfold IsPrint
    rw [if_pos (by omega), if_pos ⟨h1, h2⟩]
  have hbyte : byte b.val = b := by
    apply Fin.ext
    simp only [byte]
    omega
  unfold appendEscapedRune
  rw [if_neg (by omega), if_pos hp]
  unfold utf8EncodeRune
  rw [if_pos (by omega), hbyte]

theorem quoteLoop_plain (t : Nat → Bool) :
    ∀ (fuel : Nat) (s : GoString), s.length ≤ fuel → (∀ b ∈ s, plainByte b) →
      quoteLoop t fuel s = s := by
  intro fuel
  induction fuel with
  | zero =>
    intro s hs _
    cases s with
    | nil => rfl
    | cons a l => simp at hs
  | succ n ih =>
    intro s hs hp
    cases s with
    | nil => rfl
    | cons s0 tail0 =>
      have h0 : plainByte s0 := hp s0 (List.mem_cons_self _ _)
      have hlt : ¬ (0x80 ≤ s0.val) := by
        have := h0.2.1
        omega
      have hne : ¬ (s0.val = 0xFFFD) := by
        have := h0.2.1
        omega
      simp only [quoteLoop, if_neg hlt, hne, and_false, if_false,
        appendEscapedRune_plain t s0 h0, List.drop_succ_cons, List.drop_zero,
        List.singleton_append, List.cons.injEq, true_and]
      exact ih tail0 (by simpa using hs) (fun b hb => hp b (List.mem_cons_of_mem _ hb))

theorem Quote_plain (t : Nat → Bool) (s : GoString) (hp : ∀ b ∈ s, plainByte b) :
    Quote t s = [0x22] ++ s ++ [0x22] := by
  unfold Quote
  rw [quoteLoop_plain t s.length s (le_refl _) hp]

/-! ### Decoding what was encoded -/

theorem or_shift2 (a b : Nat) (hb : b < 64) : (a <<< 6) ||| b = a * 64 + b := by
  rw [Nat.shiftLeft_eq, Nat.mul_comm, ← Nat.mul_add_lt_is_or (i := 6) hb a]

theorem or_shift3 (a b c : Nat) (hb : b < 64) (hc : c < 64) :
    (a <<< 12) ||| (b <<< 6) ||| c = a * 4096 + b * 64 + c := by
  have h1 : (a <<< 12) ||| (b <<< 6) = 2 ^ 6 * (a * 64 + b) := by
    rw [Nat.shiftLeft_eq, Nat.shiftLeft_eq, Nat.mul_comm a,
      ← Nat.mul_add_lt_is_or (i := 12) (show b * 2 ^ 6 < 2 ^ 12 by omega) a]
    norm_num
    omega
  rw [h1, ← Nat.mul_add_lt_is_or (i := 6) hc]
  norm_num
  omega

theorem or_shift4 (a b c d : Nat) (hb : b < 64) (hc : c < 64) (hd : d < 64) :
    (a <<< 18) ||| (b <<< 12) ||| (c <<< 6) ||| d =
      a * 262144 + b * 4096 + c * 64 + d := by
  have h1 : (a <<< 18) ||| (b <<< 12) = 2 ^ 12 * (a * 64 + b) := by
    rw [Nat.shiftLeft_eq, Nat.shiftLeft_eq, Nat.mul_comm a,
      ← Nat.mul_add_lt_is_or (i := 18) (show b * 2 ^ 12 < 2 ^ 18 by omega) a]
    norm_num
    omega
  have h2 : 2 ^ 12 * (a * 64 + b) ||| (c <<< 6) = 2 ^ 6 * (a * 4096 + b * 64 + c) := by
    rw [Nat.shiftLeft_eq,
      ← Nat.mul_add_lt_is_or (i := 12) (show c * 2 ^ 6 < 2 ^ 12 by omega)]
    norm_num
    omega
  rw [h1, h2, ← Nat.mul_add_lt_is_or (i := 6) hd]
  norm_num
  omega

theorem or_lead (k i x : Nat) (hx : x < 2 ^ i) : (2 ^ i * k) ||| x = 2 ^ i * k + x :=
  (Nat.mul_add_lt_is_or hx k).symm

theorem and_3F (x : Nat) : x &&& 0x3F = x % 64 := Nat.and_pow_two_sub_one_eq_mod x 6
theorem and_1F (x : Nat) : x &&& 0x1F = x % 32 := Nat.and_pow_two_sub_one_eq_mod x 5
theorem and_0F (x : Nat) : x &&& 0x0F = x % 16 := Nat.and_pow_two_sub_one_eq_mod x 4
theorem and_07 (x : Nat) : x &&& 0x07 = x % 8 := Nat.and_pow_two_sub_one_eq_mod x 3
theorem or_80 (x : Nat) (hx : x < 64) : 0x80 ||| x = 128 + x :=
  or_lead 1 7 x (by omega)
theorem or_C0 (x : Nat) (hx : x < 32) : 0xC0 ||| x = 192 + x :=
  or_lead 3 6 x (by omega)
theorem or_E0 (x : Nat) (hx : x < 16) : 0xE0 ||| x = 224 + x :=
  or_lead 7 5 x (by omega)
theorem or_F0 (x : Nat) (hx : x < 8) : 0xF0 ||| x = 240 + x :=
  or_lead 15 4 x (by omega)

theorem byte_val (n : Nat) (h : n < 256) : (byte n).val = n := Nat.mod_eq_of_lt h

theorem byte_cont (x : Nat) :
    byte (0x80 ||| ((byte x).val &&& 0x3F)) = byte (128 + x % 64) := by
  have e : (byte x).val &&& 0x3F = x % 64 := by
    rw [and_3F]
    show x % 256 % 64 = x % 64
    omega
  rw [e, or_80 _ (by omega)]

theorem enc2 (r : Nat) (h1 : 0x7F < r) (h2 : r ≤ 0x7FF) :
    utf8EncodeRune r = [byte (192 + r / 64), byte (128 + r % 64)] := by
  have e : (byte (r >>> 6)).val = r / 64 := by
    show (r >>> 6) % 256 = r / 64
    rw [Nat.shiftRight_eq_div_pow]
    omega
  unfold utf8EncodeRune
  rw [if_neg (by omega), if_pos h2, byte_cont, e, or_C0 _ (by omega)]

theorem enc3 (r : Nat) (h1 : 0x7FF < r) (h2 : r ≤ 0xFFFF)
    (h3 : ¬ (0xD800 ≤ r ∧ r ≤ 0xDFFF)) :
    utf8EncodeRune r =
      [byte (224 + r / 4096), byte (128 + r / 64 % 64), byte (128 + r % 64)] := by
  have e : (byte (r >>> 12)).val = r / 4096 := by
    show (r >>> 12) % 256 = r / 4096
    rw [Nat.shiftRight_eq_div_pow]
    omega
  have e6 : r >>> 6 = r / 64 := Nat.shiftRight_eq_div_pow r 6
  unfold utf8EncodeRune
  rw [if_neg (by omega), if_neg (by omega), if_neg (by omega), if_pos h2, byte_cont, byte_cont,
    e, e6, or_E0 _ (by omega)]

theorem enc4 (r : Nat) (h1 : 0xFFFF < r) (h2 : r ≤ 0x10FFFF) :
    utf8EncodeRune r =
      [byte (240 + r / 262144), byte (128 + r / 4096 % 64), byte (128 + r / 64 % 64),
        byte (128 + r % 64)] := by
  have e : (byte (r >>> 18)).val = r / 262144 := by
    show (r >>> 18) % 256 = r / 262144
    rw [Nat.shiftRight_eq_div_pow]
    omega
  have e12 : r >>> 12 = r / 4096 := Nat.shiftRight_eq_div_pow r 12
  have e6 : r >>> 6 = r / 64 := Nat.shiftRight_eq_div_pow r 6
  unfold utf8EncodeRune
  rw [if_neg (by omega), if_neg (by omega), if_neg (by omega), if_neg (by omega), byte_cont,
    byte_cont, byte_cont, e, e12, e6, or_F0 _ (by omega)]

theorem dec2 (q m : Nat) (hq1 : 2 ≤ q) (hq2 : q < 32) (hm : m < 64) (rest : GoString) :
    DecodeRuneInString (byte (192 + q) :: byte (128 + m) :: rest) = (q * 64 + m, 2) := by
  have v0 : (byte (192 + q)).val = 192 + q := byte_val _ (by omega)
  have v1 : (byte (128 + m)).val = 128 + m := byte_val _ (by omega)
  have hf : first (192 + q) = 0x02 := by
    unfold first
    rw [if_neg (by omega), if_neg (by omega), if_pos (by omega)]
  have hr : ((192 + q) &&& 0x1F) <<< 6 ||| ((128 + m) &&& 0x3F) = q * 64 + m := by
    rw [and_1F, and_3F, or_shift2 _ _ (Nat.mod_lt _ (by decide))]
    omega
  have hs : (2 : Nat) &&& 7 = 2 := by decide
  have ha : acceptRanges (2 >>> 4) = (0x80, 0xBF) := by decide
  simp only [DecodeRuneInString, v0, v1, hf]
  rw [if_neg (by decide), hs, ha, if_neg (by simp), if_neg (by simp only []; omega),
    if_pos (le_refl _), hr]

theorem first_three (q m : Nat) (hq : q < 16) (hm : m < 64) (h0 : q = 0 → 32 ≤ m)
    (h13 : q = 13 → m < 32) :
    ¬ (0xF0 ≤ first (224 + q)) ∧ first (224 + q) &&& 7 = 3 ∧
    ¬ (128 + m < (acceptRanges (first (224 + q) >>> 4)).1 ∨
      (acceptRanges (first (224 + q) >>> 4)).2 < 128 + m) := by
  by_cases c0 : q = 0
  · subst c0
    have hf : first (224 + 0) = 0x13 := by decide
    have := h0 rfl
    rw [hf]
    refine ⟨by decide, by decide, ?_⟩
    have ha : acceptRanges (0x13 >>> 4) = (0xA0, 0xBF) := by decide
    rw [ha]
    simp only []
    omega
  · by_cases c13 : q = 13
    · subst c13
      have hf : first (224 + 13) = 0x23 := by decide
      have := h13 rfl
      rw [hf]
      refine ⟨by decide, by decide, ?_⟩
      have ha : acceptRanges (0x23 >>> 4) = (0x80, 0x9F) := by decide
      rw [ha]
      simp only []
      omega
    · have hf : first (224 + q) = 0x03 := by
        unfold first
        by_cases c : q ≤ 12
        · rw [if_neg (by omega), if_neg (by omega), if_neg (by omega), if_neg (by omega),
            if_pos (by omega)]
        · rw [if_neg (by omega), if_neg (by omega), if_neg (by omega), if_neg (by omega),
            if_neg (by omega), if_neg (by omega), if_pos (by omega)]
      rw [hf]
      refine ⟨by decide, by decide, ?_⟩
      have ha : acceptRanges (0x03 >>> 4) = (0x80, 0xBF) := by decide
      rw [ha]
      simp only []
      omega

theorem dec3 (q m₁ m₂ : Nat) (hq : q < 16) (h₁ : m₁ < 64) (h₂ : m₂ < 64)
    (h0 : q = 0 → 32 ≤ m₁) (h13 : q = 13 → m₁ < 32) (rest : GoString) :
    DecodeRuneInString (byte (224 + q) :: byte (128 + m₁) :: byte (128 + m₂) :: rest) =
      (q * 4096 + m₁ * 64 + m₂, 3) := by
  have v0 : (byte (224 + q)).val = 224 + q := byte_val _ (by omega)
  have v1 : (byte (128 + m₁)).val = 128 + m₁ := byte_val _ (by omega)
  have v2 : (byte (128 + m₂)).val = 128 + m₂ := byte_val _ (by omega)
  obtain ⟨hx, hsz, hacc⟩ := first_three q m₁ hq h₁ h0 h13
  have hr : ((224 + q) &&& 0x0F) <<< 12 ||| ((128 + m₁) &&& 0x3F) <<< 6 |||
      ((128 + m₂) &&& 0x3F) = q * 4096 + m₁ * 64 + m₂ := by
    rw [and_0F, and_3F, and_3F,
      or_shift3 _ _ _ (Nat.mod_lt _ (by decide)) (Nat.mod_lt _ (by decide))]
    omega
  simp only [DecodeRuneInString, v0, v1, v2]
  rw [if_neg hx, hsz, if_neg (by simp), if_neg hacc, if_neg (by decide),
    if_neg (by omega), if_pos (le_refl _), hr]

theorem first_four (q m : Nat) (hq : q ≤ 4) (hm : m < 64) (h0 : q = 0 → 16 ≤ m)
    (h4 : q = 4 → m < 16) :
    ¬ (0xF0 ≤ first (240 + q)) ∧ first (240 + q) &&& 7 = 4 ∧
    ¬ (128 + m < (acceptRanges (first (240 + q) >>> 4)).1 ∨
      (acceptRanges (first (240 + q) >>> 4)).2 < 128 + m) := by
  have hcases : q = 0 ∨ q = 1 ∨ q = 2 ∨ q = 3 ∨ q = 4 := by omega
  rcases hcases with rfl | rfl | rfl | rfl | rfl
  · have hf : first (240 + 0) = 0x34 := by decide
    have := h0 rfl
    rw [hf]
    refine ⟨by decide, by decide, ?_⟩
    have ha : acceptRanges (0x34 >>> 4) = (0x90, 0xBF) := by decide
    rw [ha]
    simp only []
    omega
  · have hf : first (240 + 1) = 0x04 := by decide
    rw [hf]
    refine ⟨by decide, by decide, ?_⟩
    have ha : acceptRanges (0x04 >>> 4) = (0x80, 0xBF) := by decide
    rw [ha]
    simp only []
    omega
  · have hf : first (240 + 2) = 0x04 := by decide
    rw [hf]
    refine ⟨by decide, by decide, ?_⟩
    have ha : acceptRanges (0x04 >>> 4) = (0x80, 0xBF) := by decide
    rw [ha]
    simp only []
    omega
  · have hf : first (240 + 3) = 0x04 := by decide
    rw [hf]
    refine ⟨by decide, by decide, ?_⟩
    have ha : acceptRanges (0x04 >>> 4) = (0x80, 0xBF) := by decide
    rw [ha]
    simp only []
    omega
  · have hf : first (240 + 4) = 0x44 := by decide
    have := h4 rfl
    rw [hf]
    refine ⟨by decide, by decide, ?_⟩
    have ha : acceptRanges (0x44 >>> 4) = (0x80, 0x8F) := by decide
    rw [ha]
    simp only []
    omega

theorem dec4 (q m₁ m₂ m₃ : Nat) (hq : q ≤ 4) (h₁ : m₁ < 64) (h₂ : m₂ < 64) (h₃ : m₃ < 64)
    (h0 : q = 0 → 16 ≤ m₁) (h4 : q = 4 → m₁ < 16) (rest : GoString) :
    DecodeRuneInString
        (byte (240 + q) :: byte (128 + m₁) :: byte (128 + m₂) :: byte (128 + m₃) :: rest) =
      (q * 262144 + m₁ * 4096 + m₂ * 64 + m₃, 4) := by
  have v0 : (byte (240 + q)).val = 240 + q := byte_val _ (by omega)
  have v1 : (byte (128 + m₁)).val = 128 + m₁ := byte_val _ (by omega)
  have v2 : (byte (128 + m₂)).val = 128 + m₂ := byte_val _ (by omega)
  have v3 : (byte (128 + m₃)).val = 128 + m₃ := byte_val _ (by omega)
  obtain ⟨hx, hsz, hacc⟩ := first_four q m₁ hq h₁ h0 h4
  have hr : ((240 + q) &&& 0x07) <<< 18 ||| ((128 + m₁) &&& 0x3F) <<< 12 |||
      ((128 + m₂) &&& 0x3F) <<< 6 ||| ((128 + m₃) &&& 0x3F) =
      q * 262144 + m₁ * 4096 + m₂ * 64 + m₃ := by
    rw [and_07, and_3F, and_3F, and_3F,
      or_shift4 _ _ _ _ (Nat.mod_lt _ (by decide)) (Nat.mod_lt _ (by decide))
        (Nat.mod_lt _ (by decide))]
    omega
  simp only [DecodeRuneInString, v0, v1, v2, v3]
  rw [if_neg hx, hsz, if_neg (by simp), if_neg hacc, if_neg (by decide),
    if_neg (by omega), if_neg (by decide), if_neg (by omega), hr]

theorem decode_encode (r : Nat) (h1 : 0x7F < r) (h2 : r ≤ 0x10FFFF)
    (h3 : ¬ (0xD800 ≤ r ∧ r ≤ 0xDFFF)) (rest : GoString) :
    DecodeRuneInString (utf8EncodeRune r ++ rest) = (r, (utf8EncodeRune r).length) ∧
    2 ≤ (utf8EncodeRune r).length ∧
    ∃ b0 bs, utf8EncodeRune r = b0 :: bs ∧ 0x80 ≤ b0.val := by
  by_cases c2 : r ≤ 0x7FF
  · rw [enc2 r h1 c2]
    refine ⟨?_, by simp, _, _, rfl, ?_⟩
    · simp only [List.cons_append, List.nil_append, List.length_cons, List.length_nil]
      rw [dec2 _ _ (by omega) (by omega) (Nat.mod_lt _ (by decide))]
      congr 1
      omega
    · rw [byte_val _ (by omega)]; omega
  · by_cases c3 : r ≤ 0xFFFF
    · rw [enc3 r (by omega) c3 h3]
      refine ⟨?_, by simp, _, _, rfl, ?_⟩
      · simp only [List.cons_append, List.nil_append, List.length_cons, List.length_nil]
        rw [dec3 _ _ _ (by omega) (Nat.mod_lt _ (by decide)) (Nat.mod_lt _ (by decide))
          (by omega) (by omega)]
        congr 1
        omega
      · rw [byte_val _ (by omega)]; omega
    · rw [enc4 r (by omega) h2]
      refine ⟨?_, by simp, _, _, rfl, ?_⟩
      · simp only [List.cons_append, List.nil_append, List.length_cons, List.length_nil]
        rw [dec4 _ _ _ _ (by omega) (Nat.mod_lt _ (by decide)) (Nat.mod_lt _ (by decide))
          (Nat.mod_lt _ (by decide)) (by omega) (by omega)]
        congr 1
        omega
      · rw [byte_val _ (by omega)]; omega

theorem appendEscapedRune_plainRune (t : Nat → Bool) (r : Nat) (h : plainRune t r) :
    appendEscapedRune t r = utf8EncodeRune r := by
  obtain ⟨_, _, hp, hq, hb⟩ := h
  unfold appendEscapedRune
  rw [if_neg (by omega), if_pos hp]

theorem quoteLoop_ascii (t : Nat → Bool) (b : Fin 256) (hb : b.val < 0x80) (fuel : Nat)
    (rest : GoString) :
    quoteLoop t (fuel + 1) (b :: rest) =
      appendEscapedRune t b.val ++ quoteLoop t fuel rest := by
  have hne : ¬ (b.val = 0xFFFD) := by omega
  simp only [quoteLoop, if_neg (not_le.mpr hb), hne, and_false, if_false,
    List.drop_succ_cons, List.drop_zero]

theorem quoteLoop_decoded (t : Nat → Bool) (b0 : Fin 256) (tail0 : GoString)
    (hb0 : 0x80 ≤ b0.val) (fuel r w : Nat) (hd : DecodeRuneInString (b0 :: tail0) = (r, w))
    (hw : 2 ≤ w) :
    quoteLoop t (fuel + 1) (b0 :: tail0) =
      appendEscapedRune t r ++ quoteLoop t fuel ((b0 :: tail0).drop w) := by
  have hne : ¬ (w = 1) := by omega
  simp only [quoteLoop, if_pos hb0, hd, hne, false_and, if_false]

theorem quoteLoop_rune (t : Nat → Bool) (r : Nat) (h : plainRune t r) (fuel : Nat)
    (rest : GoString) :
    quoteLoop t (fuel + 1) (utf8EncodeRune r ++ rest) =
      utf8EncodeRune r ++ quoteLoop t fuel rest := by
  have hesc := appendEscapedRune_plainRune t r h
  obtain ⟨hmax, hsur, _, _, _⟩ := h
  by_cases c1 : r ≤ 0x7F
  · have henc : utf8EncodeRune r = [byte r] := by
      unfold utf8EncodeRune
      rw [if_pos c1]
    have hv : (byte r).val = r := byte_val r (by omega)
    rw [henc] at hesc ⊢
    rw [List.singleton_append, quoteLoop_ascii t (byte r) (by omega), hv, hesc]
  · obtain ⟨hdec, hlen, b0, bs, henc, hb0⟩ := decode_encode r (by omega) hmax hsur rest
    have hdrop : (utf8EncodeRune r ++ rest).drop (utf8EncodeRune r).length = rest :=
      List.drop_left _ _
    rw [henc] at hdec hdrop hlen
    rw [List.cons_append] at hdec hdrop
    rw [henc, List.cons_append,
      quoteLoop_decoded t b0 (bs ++ rest) hb0 fuel r _ hdec hlen, hesc, henc, hdrop]

theorem quoteLoop_runes (t : Nat → Bool) :
    ∀ (runes : List Nat) (fuel : Nat), (∀ r ∈ runes, plainRune t r) →
      (runes.flatMap utf8EncodeRune).length ≤ fuel →
      quoteLoop t fuel (runes.flatMap utf8EncodeRune) = runes.flatMap utf8EncodeRune := by
  intro runes
  induction runes with
  | nil => intro fuel _ _; cases fuel <;> rfl
  | cons r rs ih =>
    intro fuel hp hf
    have hpos : 1 ≤ (utf8EncodeRune r).length := by
      unfold utf8EncodeRune
      split_ifs <;> simp
    rw [List.flatMap_cons, List.length_append] at hf
    cases fuel with
    | zero => omega
    | succ n =>
      rw [List.flatMap_cons, quoteLoop_rune t r (hp r (List.mem_cons_self _ _)),
        ih n (fun x hx => hp x (List.mem_cons_of_mem _ hx)) (by omega)]

theorem Quote_runes (t : Nat → Bool) (runes : List Nat) (hp : ∀ r ∈ runes, plainRune t r) :
    Quote t (runes.flatMap utf8EncodeRune) =
      [0x22] ++ runes.flatMap utf8EncodeRune ++ [0x22] := by
  unfold Quote
  rw [quoteLoop_runes t runes _ hp (le_refl _)]

/-! ### Rendering -/

theorem configLines_fold (t : Nat → Bool) (r : GoString) :
    ∀ (ds : List GoString) (k : Nat) (pre : List GoString), pre.length = k * 2 →
      (List.enumFrom k ds).foldl
        (fun lines p =>
          (lines.set (p.1 * 2) (zoneLine t p.2)).set (p.1 * 2 + 1) (dataLine p.2 r))
        (pre ++ List.replicate (ds.length * 2) []) =
      pre ++ ds.flatMap (fun d => [zoneLine t d, dataLine d r]) := by
  intro ds
  induction ds with
  | nil => intro k pre _; simp
  | cons d ds ih =>
    intro k pre hpre
    have hrep : List.replicate ((d :: ds).length * 2) ([] : GoString) =
        [] :: [] :: List.replicate (ds.length * 2) [] := by
      rw [List.length_cons, Nat.add_mul, Nat.one_mul, List.replicate_succ, List.replicate_succ]
    rw [List.enumFrom_cons, List.foldl_cons, hrep]
    have hset : ((pre ++ [] :: [] :: List.replicate (ds.length * 2) ([] : GoString)).set
        (k * 2) (zoneLine t d)).set (k * 2 + 1) (dataLine d r) =
        (pre ++ [zoneLine t d, dataLine d r]) ++ List.replicate (ds.length * 2) [] := by
      rw [List.set_append, if_neg (by omega), hpre, Nat.sub_self, List.set_cons_zero,
        List.set_append, if_neg (by omega), hpre, Nat.add_sub_cancel_left]
      simp
    rw [hset, ih (k + 1) (pre ++ [zoneLine t d, dataLine d r]) (by simp [hpre]; omega)]
    simp

theorem configLines_eq (t : Nat → Bool) (ds : List GoString) (r : GoString) :
    configLines t ds r = ds.flatMap (fun d => [zoneLine t d, dataLine d r]) := by
  have h := configLines_fold t r ds 0 [] rfl
  simpa [configLines, List.enum] using h

theorem splitLines_no_newline (l : GoString) (h : newline ∉ l) : splitLines l = [l] := by
  induction l with
  | nil => rfl
  | cons b l ih =>
    have hb : b ≠ newline := fun e => h (e ▸ List.mem_cons_self _ _)
    have hl : newline ∉ l := fun e => h (List.mem_cons_of_mem _ e)
    simp [splitLines, hb, ih hl]

theorem splitLines_append (l t : GoString) (h : newline ∉ l) :
    splitLines (l ++ newline :: t) = l :: splitLines t := by
  induction l with
  | nil => simp [splitLines]
  | cons b l ih =>
    have hb : b ≠ newline := fun e => h (e ▸ List.mem_cons_self _ _)
    have hl : newline ∉ l := fun e => h (List.mem_cons_of_mem _ e)
    simp [splitLines, hb, ih hl]

theorem str_newline : str "\n" = [newline] := by decide

theorem splitLines_Join : ∀ ls : List GoString, ls ≠ [] → (∀ l ∈ ls, newline ∉ l) →
    splitLines (Join ls (str "\n")) = ls
  | [], h, _ => absurd rfl h
  | [a], _, h => by
    simpa [Join] using splitLines_no_newline a (h a (List.mem_cons_self _ _))
  | a :: b :: rest, _, h => by
    have ha : newline ∉ a := h a (List.mem_cons_self _ _)
    have ih := splitLines_Join (b :: rest) (List.cons_ne_nil _ _)
      (fun l hl => h l (List.mem_cons_of_mem _ hl))
    rw [str_newline] at ih
    simp only [Join, str_newline, List.append_assoc, List.singleton_append]
    rw [splitLines_append a _ ha, ih]

theorem length_splitLines (t : GoString) : (splitLines t).length = t.count newline + 1 := by
  induction t with
  | nil => rfl
  | cons b t ih =>
    by_cases hb : b = newline
    · simp [splitLines, hb, ih]
    · have hsplit : ∀ ls : List GoString, ls.length = t.count newline + 1 →
          (match ls with
            | [] => [[b]]
            | l :: ls => (b :: l) :: ls).length = t.count newline + 1 := by
        intro ls hls
        cases ls with
        | nil => simp at hls
        | cons l ls => simpa using hls
      simp only [splitLines, if_neg hb]
      rw [hsplit _ ih, List.count_cons_of_ne (fun e => hb e.symm)]

theorem count_Join : ∀ ls : List GoString,
    (Join ls (str "\n")).count newline + 1 =
      (ls.map (fun l => l.count newline)).sum + (if ls = [] then 1 else ls.length)
  | [] => by simp [Join]
  | [a] => by simp [Join]
  | a :: b :: rest => by
    have ih := count_Join (b :: rest)
    simp only [Join, str_newline, List.count_append, List.count_singleton_self, List.map_cons,
      List.sum_cons, List.length_cons, if_neg (List.cons_ne_nil _ _)] at ih ⊢
    omega

theorem count_zoneLine (t : Nat → Bool) (d : GoString) : (zoneLine t d).count newline = 0 := by
  rw [List.count_eq_zero]
  unfold zoneLine
  intro h
  rcases List.mem_append.mp h with h | h
  · rcases List.mem_append.mp h with h | h
    · exact absurd h (by decide)
    · exact Quote_no_newline t d h
  · exact absurd h (by decide)

theorem count_dataLine (d r : GoString) :
    (dataLine d r).count newline = d.count newline + r.count newline := by
  have h1 : (str "local-data: \"").count newline = 0 := by decide
  have h2 : (str " A ").count newline = 0 := by decide
  have h3 : (str "\"").count newline = 0 := by decide
  simp only [dataLine, List.count_append, h1, h2, h3]
  omega

theorem zoneLine_ne_nil (t : Nat → Bool) (d : GoString) : zoneLine t d ≠ [] := by
  have h : str "local-zone: " ≠ [] := by decide
  simp [zoneLine, h]

theorem config_eq_nil_iff (t : Nat → Bool) (ds : List GoString) (r : GoString) :
    config t ds r = [] ↔ ds = [] := by
  unfold config
  rw [configLines_eq]
  cases ds with
  | nil => simp [Join]
  | cons d ds =>
    simp only [List.flatMap_cons, List.cons_append, List.nil_append, Join,
      List.append_assoc]
    simp [zoneLine_ne_nil]

theorem lineCount_config (t : Nat → Bool) (ds : List GoString) (r : GoString) :
    lineCount (config t ds r) =
      2 * ds.length + (ds.map (fun d => d.count newline + r.count newline)).sum := by
  unfold lineCount lines
  by_cases hds : ds = []
  · subst hds
    simp [(config_eq_nil_iff t [] r).mpr rfl]
  · rw [if_neg (fun h => hds ((config_eq_nil_iff t ds r).mp h)), length_splitLines]
    unfold config
    rw [count_Join, configLines_eq]
    have hne : ds.flatMap (fun d => [zoneLine t d, dataLine d r]) ≠ [] := by
      cases ds with
      | nil => exact absurd rfl hds
      | cons d ds => simp
    rw [if_neg hne]
    clear hne hds
    induction ds with
    | nil => simp
    | cons d ds ih =>
      simp only [List.flatMap_cons, List.cons_append, List.nil_append, List.map_cons,
        List.sum_cons, List.length_cons, count_zoneLine, count_dataLine] at ih ⊢
      omega

theorem lines_config (t : Nat → Bool) (ds : List GoString) (r : GoString)
    (hds : ∀ d ∈ ds, newline ∉ d) (hr : newline ∉ r) :
    lines (config t ds r) = ds.flatMap (fun d => [zoneLine t d, dataLine d r]) := by
  unfold lines
  by_cases hnil : ds = []
  · subst hnil
    simp [(config_eq_nil_iff t [] r).mpr rfl]
  · rw [if_neg (fun h => hnil ((config_eq_nil_iff t ds r).mp h))]
    unfold config
    rw [configLines_eq]
    apply splitLines_Join
    · cases ds with
      | nil => exact absurd rfl hnil
      | cons d ds => simp
    · intro l hl
      rw [List.mem_flatMap] at hl
      obtain ⟨d, hd, hl⟩ := hl
      have hz : (zoneLine t d).count newline = 0 := count_zoneLine t d
      have hdl : (dataLine d r).count newline = 0 := by
        rw [count_dataLine, List.count_eq_zero.mpr (hds d hd), List.count_eq_zero.mpr hr]
      simp only [List.mem_cons, List.mem_singleton, List.not_mem_nil, or_false] at hl
      rcases hl with rfl | rfl
      · exact List.count_eq_zero.mp hz
      · exact List.count_eq_zero.mp hdl

/-! ### The rendered configuration (C4, C5) -/

/-- C4, counterexample: for the single address a"b the zone line is
local-zone: "a\"b" redirect, in which the domain a"b itself does not occur. -/
theorem zone_line_escapes_domain :
    (∀ t : Nat → Bool, lines (config t (domains [⟨str "a\"b"⟩]) (str "10.0.0.1")) =
      [str "local-zone: \"a\\\"b\" redirect", str "local-data: \"a\"b A 10.0.0.1\""]) ∧
    ¬ (str "a\"b" <:+: str "local-zone: \"a\\\"b\" redirect") :=
  ⟨fun _ => rfl, by decide⟩

/-- C4, amended: the config text is the newline-join of, for each domain d of the
deduplicated sorted list in that order, the string local-zone: Q redirect, where Q is d as
quoted by the verb %q (strconv.Quote), followed by the string local-data: "d A r". The
domain and r occur verbatim in the data string. The domain occurs verbatim in the zone
string, between the double quotes, whenever it is the UTF-8 encoding of runes that are all
printable and none of which is the double quote or the backslash; this holds for every
domain whose bytes are printable ASCII other than those two, and for the domain é.pl.
When no address and not r holds a newline byte these strings are exactly the lines of the
text. For the domains zzz.example, aaa.example and redirect 10.0.0.1 the text has exactly
the four lines expected, aaa.example first. -/
theorem config_two_strings_per_domain (t : Nat → Bool) (entries : List registryEntry)
    (r : GoString) :
    config t (domains entries) r =
      Join ((domains entries).flatMap (fun d => [zoneLine t d, dataLine d r])) (str "\n") ∧
    (∀ d : GoString,
      zoneLine t d = str "local-zone: " ++ Quote t d ++ str " redirect" ∧
      dataLine d r = str "local-data: \"" ++ d ++ str " A " ++ r ++ str "\"" ∧
      d <:+: dataLine d r ∧ r <:+: dataLine d r ∧
      (∀ runes : List Nat, (∀ x ∈ runes, plainRune t x) →
        d = runes.flatMap utf8EncodeRune →
        Quote t d = [0x22] ++ d ++ [0x22] ∧ d <:+: zoneLine t d) ∧
      ((∀ b ∈ d, plainByte b) → Quote t d = [0x22] ++ d ++ [0x22] ∧ d <:+: zoneLine t d)) ∧
    ((∀ e ∈ entries, newline ∉ e.Address) → newline ∉ r →
      lines (config t (domains entries) r) =
        (domains entries).flatMap (fun d => [zoneLine t d, dataLine d r])) ∧
    lines (config t (domains [⟨str "zzz.example"⟩, ⟨str "aaa.example"⟩]) (str "10.0.0.1")) =
      [str "local-zone: \"aaa.example\" redirect",
       str "local-data: \"aaa.example A 10.0.0.1\"",
       str "local-zone: \"zzz.example\" redirect",
       str "local-data: \"zzz.example A 10.0.0.1\""] ∧
    zoneLine t (str "é.pl") = str "local-zone: \"é.pl\" redirect" := by
  have hin : ∀ d : GoString, Quote t d = [0x22] ++ d ++ [0x22] → d <:+: zoneLine t d := by
    intro d hq
    refine ⟨str "local-zone: " ++ [0x22], [0x22] ++ str " redirect", ?_⟩
    rw [zoneLine, hq]
    simp
  refine ⟨by rw [config, configLines_eq], fun d => ⟨rfl, rfl, ?_, ?_, ?_, ?_⟩, ?_, rfl, rfl⟩
  · exact ⟨str "local-data: \"", str " A " ++ r ++ str "\"", by simp [dataLine]⟩
  · exact ⟨str "local-data: \"" ++ d ++ str " A ", str "\"", by simp [dataLine]⟩
  · intro runes hp hd
    have hq : Quote t d = [0x22] ++ d ++ [0x22] := by
      rw [hd]
      exact Quote_runes t runes hp
    exact ⟨hq, hin d hq⟩
  · intro hp
    exact ⟨Quote_plain t d hp, hin d (Quote_plain t d hp)⟩
  · intro he hr
    apply lines_config t _ r _ hr
    intro d hd
    obtain ⟨e, hmem, rfl⟩ := (mem_domains entries d).mp hd
    exact he e hmem

set_option maxRecDepth 10000 in
theorem config_two_strings_per_domain_witness :
    str "aaa.example" <:+: zoneLine (fun _ => false) (str "aaa.example") ∧
    str "é.pl" <:+: zoneLine (fun _ => false) (str "é.pl") ∧
    lines (config (fun _ => false)
        (domains [⟨str "zzz.example"⟩, ⟨str "aaa.example"⟩]) (str "10.0.0.1")) =
      (domains [⟨str "zzz.example"⟩, ⟨str "aaa.example"⟩]).flatMap
        (fun d => [zoneLine (fun _ => false) d, dataLine d (str "10.0.0.1")]) :=
  ⟨(((config_two_strings_per_domain (fun _ => false)
      [⟨str "zzz.example"⟩, ⟨str "aaa.example"⟩] (str "10.0.0.1")).2.1
      (str "aaa.example")).2.2.2.2.2 (by decide)).2,
   (((config_two_strings_per_domain (fun _ => false)
      [⟨str "zzz.example"⟩, ⟨str "aaa.example"⟩] (str "10.0.0.1")).2.1
      (str "é.pl")).2.2.2.2.1 [0xE9, 0x2E, 0x70, 0x6C] (by decide) (by decide)).2,
   (config_two_strings_per_domain (fun _ => false)
      [⟨str "zzz.example"⟩, ⟨str "aaa.example"⟩] (str "10.0.0.1")).2.2.1
      (by decide) (by decide)⟩

theorem configLines_length (t : Nat → Bool) (D : List GoString) (r : GoString) :
    (configLines t D r).length = 2 * D.length := by
  rw [configLines_eq]
  induction D with
  | nil => rfl
  | cons d ds ih =>
    simp only [List.flatMap_cons, List.length_append, List.length_cons, List.length_nil, ih]
    omega

/-- C5: at the one-element canonical list that holds the address a.pl followed by a
newline, with redirect 10.0.0.1, the slice configLines has 2 × 1 elements, but the text
joined from it has three lines, not two: the zone string keeps the newline escaped, as %q
writes it, while the data string, written with %s, is split in two by it. -/
theorem newline_in_domain_adds_line :
    domains [⟨str "a.pl\n"⟩] = [str "a.pl\n"] ∧
    (∀ t : Nat → Bool,
      (configLines t (domains [⟨str "a.pl\n"⟩]) (str "10.0.0.1")).length = 2) ∧
    (∀ t : Nat → Bool, lines (config t (domains [⟨str "a.pl\n"⟩]) (str "10.0.0.1")) =
      [str "local-zone: \"a.pl\\n\" redirect", str "local-data: \"a.pl",
       str " A 10.0.0.1\""]) ∧
    (∀ t : Nat → Bool, lineCount (config t (domains [⟨str "a.pl\n"⟩]) (str "10.0.0.1")) = 3) ∧
    2 * (domains [⟨str "a.pl\n"⟩]).length = 2 :=
  ⟨by decide, fun _ => rfl, fun _ => rfl, fun _ => rfl, by decide⟩

/-- On every domain list the slice configLines has 2 × |D| elements, and the text joined
from it has 2 × |D| lines plus one for every newline byte inside a data string; so it has
exactly 2 × |D| lines when no domain and not r holds a newline byte. -/
theorem config_line_count (t : Nat → Bool) (D : List GoString) (r : GoString) :
    (configLines t D r).length = 2 * D.length ∧
    lineCount (config t D r) =
      2 * D.length + (D.map (fun d => d.count newline + r.count newline)).sum ∧
    ((∀ d ∈ D, newline ∉ d) → newline ∉ r → lineCount (config t D r) = 2 * D.length) := by
  refine ⟨configLines_length t D r, lineCount_config t D r, fun hD hr => ?_⟩
  rw [lineCount, lines_config t D r hD hr]
  clear hD
  induction D with
  | nil => rfl
  | cons d ds ih => simp only [List.flatMap_cons, List.length_append, List.length_cons,
      List.length_nil, ih]; omega

/-! ### Retrying -/

theorem Retry_cons_ok {σ ι : Type} (op : σ → ι → σ × Option String) (b : ExponentialBackOff)
    (st st' : σ) (x : ι) (el : Nat) (rest : List (ι × Nat)) (h : op st x = (st', none)) :
    Retry op b st ((x, el) :: rest) = ⟨st', some none⟩ := by
  simp [Retry, h]

theorem Retry_cons_stop {σ ι : Type} (op : σ → ι → σ × Option String)
    (b : ExponentialBackOff) (st st' : σ) (x : ι) (el : Nat) (rest : List (ι × Nat))
    (err : String) (h : op st x = (st', some err)) (hs : b.stops el = true) :
    Retry op b st ((x, el) :: rest) = ⟨st', some (some err)⟩ := by
  simp [Retry, h, hs]

theorem Retry_cons_again {σ ι : Type} (op : σ → ι → σ × Option String)
    (b : ExponentialBackOff) (st st' : σ) (x : ι) (el : Nat) (rest : List (ι × Nat))
    (err : String) (h : op st x = (st', some err)) (hs : b.stops el = false) :
    Retry op b st ((x, el) :: rest) = Retry op b st' rest := by
  simp [Retry, h, hs]

theorem fetchOperation_ok (st : World × List registryEntry) (d : Download)
    (h : (getList d).2 = none) :
    fetchOperation st d =
      (((st.1.info "Trying to download registry...").emit (.fetch d),
        (getList d).1.Entries), none) := by
  unfold fetchOperation
  rcases hg : getList d with ⟨reg, o⟩
  rw [hg] at h
  simp only at h
  subst h
  rfl

theorem fetchOperation_err (st : World × List registryEntry) (d : Download) (err : String)
    (h : (getList d).2 = some err) :
    fetchOperation st d =
      ((((st.1.info "Trying to download registry...").emit (.fetch d)).error
        ("Could not get registry: " ++ err), st.2), some err) := by
  unfold fetchOperation
  rcases hg : getList d with ⟨reg, o⟩
  rw [hg] at h
  simp only at h
  subst h
  rfl

theorem getLast?_cons_of_some {α : Type} (a x : α) (l : List α) (h : l.getLast? = some x) :
    (a :: l).getLast? = some x := by
  cases l with
  | nil => simp at h
  | cons b l => rw [List.getLast?_cons_cons]; exact h

theorem fetch_retry_spec (b : ExponentialBackOff) :
    ∀ (answers : List (Download × Nat)) (w : World) (entries : List registryEntry),
      ∃ ds : List Download,
        (Retry fetchOperation b (w, entries) answers).state.1.effects =
          w.effects ++ ds.map Effect.fetch ∧
        (Retry fetchOperation b (w, entries) answers).state.1.file = w.file ∧
        ((Retry fetchOperation b (w, entries) answers).result = some none →
          ∃ d, ds.getLast? = some d ∧ (getList d).2 = none ∧
            (Retry fetchOperation b (w, entries) answers).state.2 = (getList d).1.Entries) ∧
        (∀ err, (Retry fetchOperation b (w, entries) answers).result = some (some err) →
          ∃ d, ds.getLast? = some d ∧ (getList d).2 = some err) := by
  intro answers
  induction answers with
  | nil =>
    intro w entries
    exact ⟨[], by simp [Retry], rfl, by simp [Retry], by simp [Retry]⟩
  | cons x rest ih =>
    intro w entries
    obtain ⟨d, el⟩ := x
    cases hg : (getList d).2 with
    | none =>
      rw [Retry_cons_ok _ _ _ _ _ _ _ (fetchOperation_ok (w, entries) d hg)]
      exact ⟨[d], by simp [World.emit, World.info], rfl, fun _ => ⟨d, rfl, hg, rfl⟩,
        by simp⟩
    | some err =>
      cases hs : b.stops el with
      | true =>
        rw [Retry_cons_stop _ _ _ _ _ _ _ _ (fetchOperation_err (w, entries) d err hg) hs]
        refine ⟨[d], by simp [World.emit, World.info, World.error], rfl, by simp, ?_⟩
        intro e he
        simp only [Option.some.injEq] at he
        exact ⟨d, rfl, he ▸ hg⟩
      | false =>
        rw [Retry_cons_again _ _ _ _ _ _ _ _ (fetchOperation_err (w, entries) d err hg) hs]
        obtain ⟨ds, h1, h2, h3, h4⟩ := ih
          (((w.info "Trying to download registry...").emit (.fetch d)).error
            ("Could not get registry: " ++ err)) entries
        refine ⟨d :: ds, ?_, ?_, ?_, ?_⟩
        · rw [h1]; simp [World.emit, World.info, World.error]
        · rw [h2]; rfl
        · intro hr
          obtain ⟨d', hl, hd'⟩ := h3 hr
          exact ⟨d', getLast?_cons_of_some _ _ _ hl, hd'⟩
        · intro e hr
          obtain ⟨d', hl, hd'⟩ := h4 e hr
          exact ⟨d', getLast?_cons_of_some _ _ _ hl, hd'⟩

theorem write_retry_spec (cfg : GoString) (b : ExponentialBackOff) :
    ∀ (answers : List (WriteOutcome × Nat)) (w : World),
      ∃ os : List WriteOutcome,
        (Retry (writeOperation cfg) b w answers).state.effects =
          w.effects ++ os.map (Effect.write cfg) ∧
        ((Retry (writeOperation cfg) b w answers).result = none →
          (Retry (writeOperation cfg) b w answers).state.file = w.file ∨ os ≠ []) ∧
        ((Retry (writeOperation cfg) b w answers).result = some none →
          os.getLast? = some WriteOutcome.written ∧
          (Retry (writeOperation cfg) b w answers).state.file = some cfg) ∧
        (∀ err, (Retry (writeOperation cfg) b w answers).result = some (some err) →
          ∃ e left, os.getLast? = some (WriteOutcome.failed e left)) := by
  intro answers
  induction answers with
  | nil =>
    intro w
    exact ⟨[], by simp [Retry], by simp [Retry], by simp [Retry], by simp [Retry]⟩
  | cons x rest ih =>
    intro w
    obtain ⟨o, el⟩ := x
    cases o with
    | written =>
      rw [Retry_cons_ok (writeOperation cfg) b w _ _ el rest rfl]
      exact ⟨[.written], by simp [World.emit, World.info], by simp, fun _ => ⟨rfl, rfl⟩,
        by simp⟩
    | failed err left =>
      cases hs : b.stops el with
      | true =>
        rw [Retry_cons_stop (writeOperation cfg) b w _ _ el rest err rfl hs]
        exact ⟨[.failed err left], by simp [World.emit, World.info, World.error], by simp,
          by simp, fun _ _ => ⟨err, left, rfl⟩⟩
      | false =>
        rw [Retry_cons_again (writeOperation cfg) b w _ _ el rest err rfl hs]
        obtain ⟨os, h1, _, h3, h4⟩ := ih
          ({ (w.info "Trying to write config...").emit (.write cfg (.failed err left)) with
            file := left }.error ("Could not write config: " ++ err))
        refine ⟨.failed err left :: os, ?_, by simp, ?_, ?_⟩
        · rw [h1]; simp [World.emit, World.info, World.error]
        · intro hr
          exact ⟨getLast?_cons_of_some _ _ _ (h3 hr).1, (h3 hr).2⟩
        · intro e hr
          obtain ⟨e', left', hl⟩ := h4 e hr
          exact ⟨e', left', getLast?_cons_of_some _ _ _ hl⟩

/-! ### populateConfig -/

theorem populateConfig_spec (t : Nat → Bool) (r : GoString) (w : World) (a : CycleAnswers) :
    ∃ (ds : List Download) (os : List WriteOutcome) (cfg : GoString),
      (populateConfig t r w a).1.effects =
        w.effects ++ ds.map Effect.fetch ++ os.map (Effect.write cfg) ∧
      (os ≠ [] → ∃ d, ds.getLast? = some d ∧ (getList d).2 = none ∧
        cfg = config t (domains (getList d).1.Entries) r) ∧
      ((populateConfig t r w a).2 = .returned none →
        os.getLast? = some WriteOutcome.written ∧ (populateConfig t r w a).1.file = some cfg) ∧
      (∀ err, (populateConfig t r w a).2 = .returned (some err) →
        (os = [] ∧ ∃ d e, ds.getLast? = some d ∧ (getList d).2 = some e) ∨
        ∃ e left, os.getLast? = some (WriteOutcome.failed e left)) ∧
      ((Retry fetchOperation NewExponentialBackOff (w, []) a.fetches).result ≠ some none →
        os = []) := by
  obtain ⟨ds, h1, _, h3, h4⟩ := fetch_retry_spec NewExponentialBackOff a.fetches w []
  rcases hres : (Retry fetchOperation NewExponentialBackOff (w, []) a.fetches).result
    with _ | _ | err
  · have hp : populateConfig t r w a =
        ((Retry fetchOperation NewExponentialBackOff (w, []) a.fetches).state.1,
          .retrying) := by
      simp only [populateConfig, hres]
    rw [hp]
    exact ⟨ds, [], [], by simpa using h1, by simp, by simp, by simp, fun _ => rfl⟩
  · obtain ⟨d, hl, hd, hent⟩ := h3 hres
    obtain ⟨os, g1, _, g3, g4⟩ := write_retry_spec
      (config t (domains (Retry fetchOperation NewExponentialBackOff (w, [])
        a.fetches).state.2) r) NewExponentialBackOff a.writes
      (((Retry fetchOperation NewExponentialBackOff (w, []) a.fetches).state.1.info
        ("Got registry: " ++ toString (Retry fetchOperation NewExponentialBackOff (w, [])
          a.fetches).state.2.length ++ " entries")).info
        ("After deduplication: " ++ toString (domains (Retry fetchOperation
          NewExponentialBackOff (w, []) a.fetches).state.2).length ++ " entries"))
    replace g1 := g1.trans (show _ = w.effects ++ ds.map Effect.fetch ++ os.map (Effect.write
      (config t (domains (Retry fetchOperation NewExponentialBackOff (w, [])
        a.fetches).state.2) r)) by simp only [World.info]; rw [h1])
    refine ⟨ds, os, config t (domains (Retry fetchOperation NewExponentialBackOff (w, [])
      a.fetches).state.2) r, ?_, ?_, ?_, ?_, fun h => absurd rfl h⟩
    · rcases hw : (Retry (writeOperation (config t (domains (Retry fetchOperation
          NewExponentialBackOff (w, []) a.fetches).state.2) r)) NewExponentialBackOff
          (((Retry fetchOperation NewExponentialBackOff (w, []) a.fetches).state.1.info
            ("Got registry: " ++ toString (Retry fetchOperation NewExponentialBackOff (w, [])
              a.fetches).state.2.length ++ " entries")).info
            ("After deduplication: " ++ toString (domains (Retry fetchOperation
              NewExponentialBackOff (w, []) a.fetches).state.2).length ++ " entries"))
          a.writes).result with _ | _ | e <;>
        simp only [populateConfig, hres, hw] <;> exact g1
    · intro _
      exact ⟨d, hl, hd, by rw [hent]⟩
    · intro hret
      rcases hw : (Retry (writeOperation (config t (domains (Retry fetchOperation
          NewExponentialBackOff (w, []) a.fetches).state.2) r)) NewExponentialBackOff
          (((Retry fetchOperation NewExponentialBackOff (w, []) a.fetches).state.1.info
            ("Got registry: " ++ toString (Retry fetchOperation NewExponentialBackOff (w, [])
              a.fetches).state.2.length ++ " entries")).info
            ("After deduplication: " ++ toString (domains (Retry fetchOperation
              NewExponentialBackOff (w, []) a.fetches).state.2).length ++ " entries"))
          a.writes).result with _ | _ | e
      · simp [populateConfig, hres, hw] at hret
      · have := g3 hw
        simp only [populateConfig, hres, hw]
        exact this
      · simp [populateConfig, hres, hw] at hret
    · intro e hret
      rcases hw : (Retry (writeOperation (config t (domains (Retry fetchOperation
          NewExponentialBackOff (w, []) a.fetches).state.2) r)) NewExponentialBackOff
          (((Retry fetchOperation NewExponentialBackOff (w, []) a.fetches).state.1.info
            ("Got registry: " ++ toString (Retry fetchOperation NewExponentialBackOff (w, [])
              a.fetches).state.2.length ++ " entries")).info
            ("After deduplication: " ++ toString (domains (Retry fetchOperation
              NewExponentialBackOff (w, []) a.fetches).state.2).length ++ " entries"))
          a.writes).result with _ | _ | e'
      · simp [populateConfig, hres, hw] at hret
      · simp [populateConfig, hres, hw] at hret
      · exact Or.inr (g4 e' hw)
  · have hp : populateConfig t r w a =
        ((Retry fetchOperation NewExponentialBackOff (w, []) a.fetches).state.1,
          .returned (some ("while populating config: " ++ err))) := by
      simp only [populateConfig, hres]
    rw [hp]
    obtain ⟨d, hl, hd⟩ := h4 err hres
    exact ⟨ds, [], [], by simpa using h1, by simp, by simp,
      fun _ _ => Or.inl ⟨rfl, d, err, hl, hd⟩, fun _ => rfl⟩

/-! ### Retrying up to the deadline -/

theorem stops_false_of_le (el : Nat) (h : el ≤ NewExponentialBackOff.MaxElapsedTime) :
    NewExponentialBackOff.stops el = false := by
  simp [ExponentialBackOff.stops, not_lt.mpr h]

theorem stops_true_of_lt (el : Nat) (h : NewExponentialBackOff.MaxElapsedTime < el) :
    NewExponentialBackOff.stops el = true := by
  have h0 : NewExponentialBackOff.MaxElapsedTime ≠ 0 := by decide
  simp [ExponentialBackOff.stops, h, h0]

theorem stops_false_of_zero (b : ExponentialBackOff) (h : b.MaxElapsedTime = 0) (el : Nat) :
    b.stops el = false := by
  simp [ExponentialBackOff.stops, h]

theorem Retry_append_failures {σ ι : Type} (op : σ → ι → σ × Option String)
    (b : ExponentialBackOff) (fails : List (ι × Nat))
    (hfail : ∀ st, ∀ x ∈ fails, (op st x.1).2 ≠ none)
    (htime : ∀ x ∈ fails, b.stops x.2 = false) :
    ∀ (st : σ) (rest : List (ι × Nat)),
      Retry op b st (fails ++ rest) =
        Retry op b (fails.foldl (fun s x => (op s x.1).1) st) rest := by
  induction fails with
  | nil => intro st rest; rfl
  | cons x fails ih =>
    intro st rest
    obtain ⟨a, el⟩ := x
    have hx := hfail st (a, el) (List.mem_cons_self _ _)
    rcases h : op st a with ⟨st', _ | err⟩
    · rw [h] at hx; exact absurd rfl hx
    · rw [List.cons_append,
        Retry_cons_again op b st st' a el _ err h (htime (a, el) (List.mem_cons_self _ _)),
        List.foldl_cons, ih (fun s y hy => hfail s y (List.mem_cons_of_mem _ hy))
          (fun y hy => htime y (List.mem_cons_of_mem _ hy))]
      simp only [h]

theorem fetchOperation_effects (st : World × List registryEntry) (d : Download) :
    (fetchOperation st d).1.1.effects = st.1.effects ++ [Effect.fetch d] := by
  cases hg : (getList d).2 with
  | none => rw [fetchOperation_ok st d hg]; rfl
  | some err => rw [fetchOperation_err st d err hg]; rfl

theorem fetch_fold_effects (fails : List (Download × Nat)) :
    ∀ st : World × List registryEntry,
      (fails.foldl (fun s x => (fetchOperation s x.1).1) st).1.effects =
        st.1.effects ++ fails.map (fun x => Effect.fetch x.1) := by
  induction fails with
  | nil => intro st; simp
  | cons x fails ih =>
    intro st
    rw [List.foldl_cons, ih, fetchOperation_effects]
    simp

theorem writeOperation_effects (cfg : GoString) (w : World) (o : WriteOutcome) :
    (writeOperation cfg w o).1.effects = w.effects ++ [Effect.write cfg o] := by
  cases o <;> rfl

theorem write_fold_effects (cfg : GoString) (fails : List (WriteOutcome × Nat)) :
    ∀ w : World,
      (fails.foldl (fun s x => (writeOperation cfg s x.1).1) w).effects =
        w.effects ++ fails.map (fun x => Effect.write cfg x.1) := by
  induction fails with
  | nil => intro w; simp
  | cons x fails ih =>
    intro w
    rw [List.foldl_cons, ih, writeOperation_effects]
    simp

theorem Retry_write_stop (cfg : GoString) (b : ExponentialBackOff) (w : World) (e : String)
    (left : Option GoString) (el : Nat) (rest : List (WriteOutcome × Nat))
    (h : b.stops el = true) :
    Retry (writeOperation cfg) b w ((.failed e left, el) :: rest) =
      ⟨(writeOperation cfg w (.failed e left)).1, some (some e)⟩ :=
  Retry_cons_stop (writeOperation cfg) b w _ (.failed e left) el rest e rfl h

theorem populateConfig_fetch_retrying (t : Nat → Bool) (r : GoString) (w : World)
    (a : CycleAnswers)
    (h : (Retry fetchOperation NewExponentialBackOff (w, []) a.fetches).result = none) :
    populateConfig t r w a =
      ((Retry fetchOperation NewExponentialBackOff (w, []) a.fetches).state.1,
        .retrying) := by
  simp only [populateConfig, h]

theorem populateConfig_fetch_gaveUp (t : Nat → Bool) (r : GoString) (w : World)
    (a : CycleAnswers) (err : String)
    (h : (Retry fetchOperation NewExponentialBackOff (w, []) a.fetches).result =
      some (some err)) :
    populateConfig t r w a =
      ((Retry fetchOperation NewExponentialBackOff (w, []) a.fetches).state.1,
        .returned (some ("while populating config: " ++ err))) := by
  simp only [populateConfig, h]

theorem populateConfig_fetch_ok (t : Nat → Bool) (r : GoString) (w w1 : World)
    (a : CycleAnswers) (entries : List registryEntry)
    (h : Retry fetchOperation NewExponentialBackOff (w, []) a.fetches =
      ⟨(w1, entries), some none⟩) :
    populateConfig t r w a =
      ((Retry (writeOperation (config t (domains entries) r)) NewExponentialBackOff
          ((w1.info ("Got registry: " ++ toString entries.length ++ " entries")).info
            ("After deduplication: " ++ toString (domains entries).length ++ " entries"))
          a.writes).state,
        match (Retry (writeOperation (config t (domains entries) r)) NewExponentialBackOff
          ((w1.info ("Got registry: " ++ toString entries.length ++ " entries")).info
            ("After deduplication: " ++ toString (domains entries).length ++ " entries"))
          a.writes).result with
        | none => .retrying
        | some (some err) => .returned (some ("while populating config: " ++ err))
        | some none => .returned none) := by
  simp only [populateConfig, h]
  rcases (Retry (writeOperation (config t (domains entries) r)) NewExponentialBackOff
    ((w1.info ("Got registry: " ++ toString entries.length ++ " entries")).info
      ("After deduplication: " ++ toString (domains entries).length ++ " entries"))
    a.writes).result with _ | _ | e <;> rfl

theorem getList_ok (d : Download) (hd : (getList d).2 = none) :
    (getList d).1.Entries ≠ [] ∧ d = .parsed (getList d).1 := by
  cases d with
  | connectFailed err => simp [getList] at hd
  | readFailed err => simp [getList] at hd
  | parseFailed err decoded => simp [getList] at hd
  | parsed reg' =>
    by_cases he : reg'.Entries = []
    · simp [getList, he] at hd
    · simp [getList, he]

/-! ### Fetching and retrying (C6, C7) -/

/-- C6: for a registry that was downloaded and parsed, getList returns an error when it
has no entry and returns the registry with a nil error when it has at least one; so a nil
error from getList always comes with a parsed registry that has an entry. -/
theorem getList_rejects_empty_registry (reg : registry) :
    (reg.Entries = [] → getList (.parsed reg) = (reg, some "zero results in registry")) ∧
    (reg.Entries ≠ [] → getList (.parsed reg) = (reg, none)) ∧
    (∀ d : Download, (getList d).2 = none →
      (getList d).1.Entries ≠ [] ∧ d = .parsed (getList d).1) := by
  exact ⟨fun h => by simp [getList, h], fun h => by simp [getList, h], getList_ok⟩

theorem getList_rejects_empty_registry_witness :
    getList (.parsed ⟨[]⟩) = (⟨[]⟩, some "zero results in registry") ∧
    getList (.parsed ⟨[⟨str "a.pl"⟩]⟩) = (⟨[⟨str "a.pl"⟩]⟩, none) :=
  ⟨(getList_rejects_empty_registry ⟨[]⟩).1 rfl,
   (getList_rejects_empty_registry ⟨[⟨str "a.pl"⟩]⟩).2.1 (by simp)⟩

/-- C7, counterexample: a fetch that fails after one second is retried, but when it fails
again after 901 seconds populateConfig gives up: it returns an error and never makes the
third attempt, which would have succeeded. A write that fails after 901 seconds ends
populateConfig with an error in the same way. -/
theorem populateConfig_gives_up_after_deadline :
    (∀ t : Nat → Bool,
      populateConfig t (str "10.0.0.1") ⟨none, [], []⟩
        ⟨[(.connectFailed "timeout", 1000000000), (.connectFailed "timeout", 901000000000),
          (.parsed ⟨[⟨str "a.pl"⟩]⟩, 0)], [(.written, 0)], none⟩ =
      (⟨none, [.fetch (.connectFailed "timeout"), .fetch (.connectFailed "timeout")],
        [(.info, "Trying to download registry..."),
         (.error, "Could not get registry: while connecting to registry: timeout"),
         (.info, "Trying to download registry..."),
         (.error, "Could not get registry: while connecting to registry: timeout")]⟩,
       .returned (some "while populating config: while connecting to registry: timeout"))) ∧
    (∀ t : Nat → Bool,
      (populateConfig t (str "10.0.0.1") ⟨none, [], []⟩
        ⟨[(.parsed ⟨[⟨str "a.pl"⟩]⟩, 0)],
          [(.failed "disk full" none, 901000000000), (.written, 0)], none⟩).2 =
      .returned (some "while populating config: disk full")) :=
  ⟨fun _ => rfl, fun _ => rfl⟩

/-- C7, amended: populateConfig retries the fetch, and then the write, with no maximum
retry count for as long as the elapsed time the backoff policy reads after a failure is at
most MaxElapsedTime, which NewExponentialBackOff sets to 15 minutes: after any number of
such failures the operation has been attempted every time and populateConfig is still
retrying. The first failure after which the elapsed time exceeds 15 minutes ends the
retrying, and populateConfig returns that error. -/
theorem populateConfig_retries_until_deadline (t : Nat → Bool) (r : GoString) (w : World)
    (fails : List (Download × Nat)) (wfails : List (WriteOutcome × Nat))
    (hfail : ∀ x ∈ fails, (getList x.1).2 ≠ none)
    (htime : ∀ x ∈ fails, x.2 ≤ NewExponentialBackOff.MaxElapsedTime)
    (hwfail : ∀ x ∈ wfails, x.1 ≠ WriteOutcome.written)
    (hwtime : ∀ x ∈ wfails, x.2 ≤ NewExponentialBackOff.MaxElapsedTime) :
    (∀ ws reload,
      (populateConfig t r w ⟨fails, ws, reload⟩).2 = .retrying ∧
      (populateConfig t r w ⟨fails, ws, reload⟩).1.effects =
        w.effects ++ fails.map (fun x => Effect.fetch x.1)) ∧
    (∀ d el rest ws reload e, (getList d).2 = some e →
      NewExponentialBackOff.MaxElapsedTime < el →
      (populateConfig t r w ⟨fails ++ (d, el) :: rest, ws, reload⟩).2 =
        .returned (some ("while populating config: " ++ e))) ∧
    (∀ d el reload, (getList d).2 = none →
      (populateConfig t r w ⟨fails ++ [(d, el)], wfails, reload⟩).2 = .retrying ∧
      (populateConfig t r w ⟨fails ++ [(d, el)], wfails, reload⟩).1.effects =
        w.effects ++ fails.map (fun x => Effect.fetch x.1) ++ [Effect.fetch d] ++
          wfails.map (fun x =>
            Effect.write (config t (domains (getList d).1.Entries) r) x.1)) ∧
    (∀ d el reload e left el' rest, (getList d).2 = none →
      NewExponentialBackOff.MaxElapsedTime < el' →
      (populateConfig t r w
        ⟨fails ++ [(d, el)], wfails ++ (.failed e left, el') :: rest, reload⟩).2 =
        .returned (some ("while populating config: " ++ e))) := by
  have hf : ∀ st, ∀ x ∈ fails, (fetchOperation st x.1).2 ≠ none := by
    intro st x hx
    cases hg : (getList x.1).2 with
    | none => exact absurd hg (hfail x hx)
    | some err => rw [fetchOperation_err st x.1 err hg]; simp
  have hft : ∀ x ∈ fails, NewExponentialBackOff.stops x.2 = false :=
    fun x hx => stops_false_of_le x.2 (htime x hx)
  have hwf : ∀ cfg st, ∀ x ∈ wfails, (writeOperation cfg st x.1).2 ≠ none := by
    intro cfg st x hx
    have := hwfail x hx
    cases hx1 : x.1 with
    | written => exact absurd hx1 this
    | failed err left => simp [writeOperation]
  have hwt : ∀ x ∈ wfails, NewExponentialBackOff.stops x.2 = false :=
    fun x hx => stops_false_of_le x.2 (hwtime x hx)
  have hpre := Retry_append_failures fetchOperation NewExponentialBackOff fails hf hft
  have hwpre := fun cfg =>
    Retry_append_failures (writeOperation cfg) NewExponentialBackOff wfails (hwf cfg) hwt
  have hok : ∀ d el, (getList d).2 = none →
      Retry fetchOperation NewExponentialBackOff (w, []) (fails ++ [(d, el)]) =
        ⟨((((fails.foldl (fun s x => (fetchOperation s x.1).1) (w, [])).1.info
          "Trying to download registry...").emit (.fetch d)), (getList d).1.Entries),
          some none⟩ := by
    intro d el hd
    rw [hpre, Retry_cons_ok _ _ _ _ _ _ _ (fetchOperation_ok _ d hd)]
  refine ⟨?_, ?_, ?_, ?_⟩
  · intro ws reload
    have h := hpre (w, []) []
    rw [List.append_nil] at h
    have hres : (Retry fetchOperation NewExponentialBackOff (w, [])
        (CycleAnswers.mk fails ws reload).fetches).result = none := by
      show (Retry fetchOperation NewExponentialBackOff (w, []) fails).result = none
      rw [h]; rfl
    rw [populateConfig_fetch_retrying t r w _ hres]
    refine ⟨rfl, ?_⟩
    show (Retry fetchOperation NewExponentialBackOff (w, []) fails).state.1.effects = _
    rw [h]
    exact fetch_fold_effects fails (w, [])
  · intro d el rest ws reload e hd hel
    have hres : (Retry fetchOperation NewExponentialBackOff (w, [])
        (CycleAnswers.mk (fails ++ (d, el) :: rest) ws reload).fetches).result =
        some (some e) := by
      show (Retry fetchOperation NewExponentialBackOff (w, [])
        (fails ++ (d, el) :: rest)).result = some (some e)
      rw [hpre, Retry_cons_stop _ _ _ _ _ _ _ _ (fetchOperation_err _ d e hd)
        (stops_true_of_lt el hel)]
    rw [populateConfig_fetch_gaveUp t r w _ e hres]
  · intro d el reload hd
    rw [populateConfig_fetch_ok t r w _ ⟨fails ++ [(d, el)], wfails, reload⟩ _ (hok d el hd)]
    have h := hwpre (config t (domains (getList d).1.Entries) r)
      ((((((fails.foldl (fun s x => (fetchOperation s x.1).1) (w, [])).1.info
        "Trying to download registry...").emit (.fetch d))).info
        ("Got registry: " ++ toString (getList d).1.Entries.length ++ " entries")).info
        ("After deduplication: " ++ toString (domains (getList d).1.Entries).length ++
          " entries")) []
    rw [List.append_nil] at h
    simp only [h, Retry]
    refine ⟨trivial, ?_⟩
    rw [write_fold_effects]
    simp only [World.info, World.emit, fetch_fold_effects]
  · intro d el reload e left el' rest hd hel
    rw [populateConfig_fetch_ok t r w _
      ⟨fails ++ [(d, el)], wfails ++ (.failed e left, el') :: rest, reload⟩ _ (hok d el hd)]
    have h := hwpre (config t (domains (getList d).1.Entries) r)
      ((((((fails.foldl (fun s x => (fetchOperation s x.1).1) (w, [])).1.info
        "Trying to download registry...").emit (.fetch d))).info
        ("Got registry: " ++ toString (getList d).1.Entries.length ++ " entries")).info
        ("After deduplication: " ++ toString (domains (getList d).1.Entries).length ++
          " entries")) ((.failed e left, el') :: rest)
    simp only [h, Retry_write_stop _ _ _ e left el' rest (stops_true_of_lt el' hel)]

theorem populateConfig_retries_until_deadline_witness :
    ((populateConfig (fun _ => false) (str "10.0.0.1") ⟨none, [], []⟩
        ⟨[(.connectFailed "timeout", 1000000000)], [], none⟩).2 = .retrying ∧
      (populateConfig (fun _ => false) (str "10.0.0.1") ⟨none, [], []⟩
        ⟨[(.connectFailed "timeout", 1000000000)], [], none⟩).1.effects =
        [] ++ [(Download.connectFailed "timeout", 1000000000)].map
          (fun x => Effect.fetch x.1)) ∧
    (populateConfig (fun _ => false) (str "10.0.0.1") ⟨none, [], []⟩
        ⟨[(.connectFailed "timeout", 1000000000)] ++
          (.readFailed "reset", 901000000000) :: [], [], none⟩).2 =
      .returned (some ("while populating config: " ++ "while downloading registry: reset")) :=
  ⟨(populateConfig_retries_until_deadline (fun _ => false) (str "10.0.0.1") ⟨none, [], []⟩
      [(.connectFailed "timeout", 1000000000)] [(.failed "disk full" none, 2000000000)]
      (by simp [getList]) (by simp [NewExponentialBackOff]) (by simp)
      (by simp [NewExponentialBackOff])).1 [] none,
   (populateConfig_retries_until_deadline (fun _ => false) (str "10.0.0.1") ⟨none, [], []⟩
      [(.connectFailed "timeout", 1000000000)] [(.failed "disk full" none, 2000000000)]
      (by simp [getList]) (by simp [NewExponentialBackOff]) (by simp)
      (by simp [NewExponentialBackOff])).2.1 (.readFailed "reset") 901000000000 [] [] none
      "while downloading registry: reset" rfl (by decide)⟩

/-! ### The order of a cycle (C8) -/

theorem periodicCycle_effects (t : Nat → Bool) (r : GoString) (w : World) (a : CycleAnswers) :
    (periodicCycle t r w a).1.effects =
      (populateConfig t r (w.info "Starting periodic config update...") a).1.effects ++
        reloadEffects (populateConfig t r (w.info "Starting periodic config update...") a).2
          a.reload := by
  simp only [periodicCycle]
  rcases populateConfig t r (w.info "Starting periodic config update...") a
    with ⟨w1, _ | _ | err⟩ <;>
    simp [reloadEffects, World.info, World.error, World.emit, reloadUnbound]

theorem startupCycle_effects (t : Nat → Bool) (r : GoString) (w : World) (a : CycleAnswers) :
    (startupCycle t r w a).1.effects =
      (populateConfig t r (w.info "Starting up...") a).1.effects ++
        reloadEffects (populateConfig t r (w.info "Starting up...") a).2 a.reload := by
  simp only [startupCycle]
  rcases populateConfig t r (w.info "Starting up...") a with ⟨w1, _ | _ | err⟩
  · simp [reloadEffects]
  · rcases hr : a.reload with _ | e <;>
      simp [reloadEffects, World.info, World.error, World.emit, reloadUnbound, hr]
  · simp [reloadEffects, World.info, World.error]

theorem cycle_core (t : Nat → Bool) (r : GoString) (w : World) (a : CycleAnswers) :
    ∃ fs ws rs : List Effect,
      (populateConfig t r w a).1.effects ++ reloadEffects (populateConfig t r w a).2 a.reload =
        w.effects ++ fs ++ ws ++ rs ∧
      StagesInOrder fs ws rs ∧
      ((populateConfig t r w a).2 ≠ .returned none → rs = []) ∧
      ((Retry fetchOperation NewExponentialBackOff (w, []) a.fetches).result ≠ some none →
        ws = [] ∧ rs = []) := by
  obtain ⟨ds, os, cfg, h1, h2, h3, h4, h5⟩ := populateConfig_spec t r w a
  refine ⟨ds.map Effect.fetch, os.map (Effect.write cfg),
    reloadEffects (populateConfig t r w a).2 a.reload, by rw [h1], ⟨?_, ?_, ?_, ?_, ?_⟩, ?_, ?_⟩
  · intro e he
    obtain ⟨d, _, rfl⟩ := List.mem_map.mp he
    exact ⟨d, rfl⟩
  · intro e he
    obtain ⟨o, _, rfl⟩ := List.mem_map.mp he
    exact ⟨cfg, o, rfl⟩
  · rcases (populateConfig t r w a).2 with _ | _ | err
    · exact Or.inl rfl
    · exact Or.inr ⟨a.reload, rfl⟩
    · exact Or.inl rfl
  · intro hws
    obtain ⟨d, hl, hd, _⟩ := h2 (fun h => hws (by rw [h]; rfl))
    exact ⟨d, by rw [List.getLast?_map, hl]; rfl, hd⟩
  · intro hrs
    have hret : (populateConfig t r w a).2 = .returned none := by
      rcases ho : (populateConfig t r w a).2 with _ | _ | err
      · rw [ho] at hrs; exact absurd rfl hrs
      · rfl
      · rw [ho] at hrs; exact absurd rfl hrs
    exact ⟨cfg, by rw [List.getLast?_map, (h3 hret).1]; rfl⟩
  · intro hne
    rcases ho : (populateConfig t r w a).2 with _ | _ | err
    · rfl
    · exact absurd ho hne
    · rfl
  · intro hne
    have hos := h5 hne
    refine ⟨by rw [hos]; rfl, ?_⟩
    rcases ho : (populateConfig t r w a).2 with _ | _ | err
    · rfl
    · have := (h3 ho).1
      rw [hos] at this
      simp at this
    · rfl

/-- C8: in the startup cycle of main and in every periodic cycle of run the external calls
are, in this order, fetch attempts, then write attempts, then at most one reload. A write
is attempted only after a fetch that succeeded, the reload is made only after a write that
succeeded and is never repeated, and when populateConfig does not return nil (its fetch or
write stage returned an error) no reload is made; when the fetch stage does not succeed
there is no write either. -/
theorem cycle_stages_in_order (t : Nat → Bool) (r : GoString) (w : World) (a : CycleAnswers) :
    (∃ fs ws rs : List Effect,
      (startupCycle t r w a).1.effects = w.effects ++ fs ++ ws ++ rs ∧
      StagesInOrder fs ws rs ∧
      ((populateConfig t r (w.info "Starting up...") a).2 ≠ .returned none → rs = []) ∧
      ((Retry fetchOperation NewExponentialBackOff (w.info "Starting up...", [])
        a.fetches).result ≠ some none → ws = [] ∧ rs = [])) ∧
    (∃ fs ws rs : List Effect,
      (periodicCycle t r w a).1.effects = w.effects ++ fs ++ ws ++ rs ∧
      StagesInOrder fs ws rs ∧
      ((populateConfig t r (w.info "Starting periodic config update...") a).2 ≠
        .returned none → rs = []) ∧
      ((Retry fetchOperation NewExponentialBackOff
        (w.info "Starting periodic config update...", []) a.fetches).result ≠ some none →
        ws = [] ∧ rs = [])) := by
  constructor
  · obtain ⟨fs, ws, rs, h1, h2, h3, h4⟩ := cycle_core t r (w.info "Starting up...") a
    exact ⟨fs, ws, rs, by rw [startupCycle_effects, h1]; rfl, h2, h3, h4⟩
  · obtain ⟨fs, ws, rs, h1, h2, h3, h4⟩ :=
      cycle_core t r (w.info "Starting periodic config update...") a
    exact ⟨fs, ws, rs, by rw [periodicCycle_effects, h1]; rfl, h2, h3, h4⟩

/-! ### A failing reload (C9) -/

theorem populateConfig_ok_written (t : Nat → Bool) (r : GoString) (w : World)
    (a : CycleAnswers) (h : (populateConfig t r w a).2 = .returned none) :
    ∃ cfg pre, (populateConfig t r w a).1.file = some cfg ∧
      (populateConfig t r w a).1.effects = pre ++ [Effect.write cfg WriteOutcome.written] := by
  obtain ⟨ds, os, cfg, h1, _, h3, _, _⟩ := populateConfig_spec t r w a
  obtain ⟨hlast, hfile⟩ := h3 h
  obtain ⟨os', rfl⟩ := List.getLast?_eq_some_iff.mp hlast
  exact ⟨cfg, w.effects ++ ds.map Effect.fetch ++ os'.map (Effect.write cfg), hfile,
    by rw [h1]; simp⟩

theorem periodicCycle_of_ok (t : Nat → Bool) (r : GoString) (w w1 : World) (a : CycleAnswers)
    (hp : populateConfig t r (w.info "Starting periodic config update...") a =
      (w1, .returned none)) :
    periodicCycle t r w a =
      (⟨w1.file, w1.effects ++ [Effect.reload a.reload],
        w1.log ++ [(Severity.info, "Periodic config update done. Reloading unbound."),
          (Severity.info, "Unbound reloaded.")]⟩, true) := by
  simp only [periodicCycle, hp]
  simp [reloadUnbound, World.info, World.emit]

theorem startupCycle_of_ok (t : Nat → Bool) (r : GoString) (w w1 : World) (a : CycleAnswers)
    (err : String) (hr : a.reload = some err)
    (hp : populateConfig t r (w.info "Starting up...") a = (w1, .returned none)) :
    startupCycle t r w a =
      (⟨w1.file, w1.effects ++ [Effect.reload (some err)],
        w1.log ++ [(Severity.error, "While reloading unbound at startup: " ++ err),
          (Severity.error, "Continuing anyway..."),
          (Severity.info, "Initial config update done.")]⟩, true) := by
  simp only [startupCycle, hp, hr, reloadUnbound]
  simp [World.info, World.error, World.emit]

/-- C9: in a cycle whose write succeeded (populateConfig returned nil) and whose reload
then fails, the output file still holds exactly the text of that last, successful write;
the failing reload is the last external call of the cycle, directly after that write; the
log gets no populateConfig error, only the lines of the reload; and the process goes on:
run handles the next signal, and main enters run. -/
theorem reload_failure_keeps_config (t : Nat → Bool) (r : GoString) (w : World)
    (a : CycleAnswers) (err : String) (hreload : a.reload = some err) :
    ((populateConfig t r (w.info "Starting periodic config update...") a).2 =
        .returned none →
      ∃ cfg pre,
        (populateConfig t r (w.info "Starting periodic config update...") a).1.effects =
          pre ++ [Effect.write cfg WriteOutcome.written] ∧
        periodicCycle t r w a =
          (⟨some cfg,
            pre ++ [Effect.write cfg WriteOutcome.written, Effect.reload (some err)],
            (populateConfig t r (w.info "Starting periodic config update...") a).1.log ++
              [(Severity.info, "Periodic config update done. Reloading unbound."),
               (Severity.info, "Unbound reloaded.")]⟩, true) ∧
        ∀ rest, run t r w (Signal.tick a :: rest) = run t r (periodicCycle t r w a).1 rest) ∧
    ((populateConfig t r (w.info "Starting up...") a).2 = .returned none →
      ∃ cfg pre,
        (populateConfig t r (w.info "Starting up...") a).1.effects =
          pre ++ [Effect.write cfg WriteOutcome.written] ∧
        startupCycle t r w a =
          (⟨some cfg,
            pre ++ [Effect.write cfg WriteOutcome.written, Effect.reload (some err)],
            (populateConfig t r (w.info "Starting up...") a).1.log ++
              [(Severity.error, "While reloading unbound at startup: " ++ err),
               (Severity.error, "Continuing anyway..."),
               (Severity.info, "Initial config update done.")]⟩, true) ∧
        (w.effects = [] → w.log = [] → ∀ ticks,
          main t r w.file a ticks =
            run t r (startupCycle t r w a).1 (ticks.map Signal.tick))) := by
  constructor
  · intro h
    obtain ⟨cfg, pre, hfile, heff⟩ := populateConfig_ok_written t r _ a h
    rcases hp : populateConfig t r (w.info "Starting periodic config update...") a
      with ⟨w1, o⟩
    rw [hp] at h hfile heff
    simp only at h hfile heff
    subst h
    have hc := periodicCycle_of_ok t r w w1 a hp
    refine ⟨cfg, pre, heff, ?_, ?_⟩
    · rw [hc, hfile, heff, hreload]; simp
    · intro rest
      simp only [run, hc]
  · intro h
    obtain ⟨cfg, pre, hfile, heff⟩ := populateConfig_ok_written t r _ a h
    rcases hp : populateConfig t r (w.info "Starting up...") a with ⟨w1, o⟩
    rw [hp] at h hfile heff
    simp only at h hfile heff
    subst h
    have hc := startupCycle_of_ok t r w w1 a err hreload hp
    refine ⟨cfg, pre, heff, ?_, ?_⟩
    · rw [hc, hfile, heff]; simp
    · intro he hl ticks
      have hw : ({ file := w.file, effects := [], log := [] } : World) = w := by
        cases w; simp_all
      simp only [main, hw, hc]

theorem reload_failure_keeps_config_witness :
    reloadFailsAnswers.reload = some "exit status 1" ∧
    (populateConfig (fun _ => false) (str "10.0.0.1")
      ((⟨none, [], []⟩ : World).info "Starting periodic config update...")
      reloadFailsAnswers).2 = .returned none ∧
    ∃ cfg pre,
      (populateConfig (fun _ => false) (str "10.0.0.1")
        ((⟨none, [], []⟩ : World).info "Starting periodic config update...")
        reloadFailsAnswers).1.effects = pre ++ [Effect.write cfg WriteOutcome.written] ∧
      periodicCycle (fun _ => false) (str "10.0.0.1") ⟨none, [], []⟩ reloadFailsAnswers =
        (⟨some cfg,
          pre ++ [Effect.write cfg WriteOutcome.written, Effect.reload (some "exit status 1")],
          (populateConfig (fun _ => false) (str "10.0.0.1")
            ((⟨none, [], []⟩ : World).info "Starting periodic config update...")
            reloadFailsAnswers).1.log ++
            [(Severity.info, "Periodic config update done. Reloading unbound."),
             (Severity.info, "Unbound reloaded.")]⟩, true) ∧
      ∀ rest, run (fun _ => false) (str "10.0.0.1") ⟨none, [], []⟩
          (Signal.tick reloadFailsAnswers :: rest) =
        run (fun _ => false) (str "10.0.0.1")
          (periodicCycle (fun _ => false) (str "10.0.0.1") ⟨none, [], []⟩
            reloadFailsAnswers).1 rest :=
  ⟨rfl, rfl, (reload_failure_keeps_config (fun _ => false) (str "10.0.0.1") ⟨none, [], []⟩
    reloadFailsAnswers "exit status 1" rfl).1 rfl⟩

/-! ### What is written (C10) -/

theorem rendered_nonempty (t : Nat → Bool) (r cfg : GoString)
    (h : RenderedFromEntries t r cfg) : cfg ≠ [] ∧ 2 ≤ lineCount cfg := by
  obtain ⟨entries, _, hd, rfl⟩ := h
  refine ⟨fun hc => hd ((config_eq_nil_iff t _ r).mp hc), ?_⟩
  rw [lineCount_config]
  have : 0 < (domains entries).length := List.length_pos.mpr hd
  omega

theorem write_is_rendered (t : Nat → Bool) (r : GoString) (w : World) (a : CycleAnswers)
    (cfg : GoString) (o : WriteOutcome)
    (h : Effect.write cfg o ∈ (populateConfig t r w a).1.effects) :
    Effect.write cfg o ∈ w.effects ∨ RenderedFromEntries t r cfg := by
  obtain ⟨ds, os, cfg0, h1, h2, _, _, _⟩ := populateConfig_spec t r w a
  rw [h1] at h
  rcases List.mem_append.mp h with h | h
  · rcases List.mem_append.mp h with h | h
    · exact Or.inl h
    · obtain ⟨d, _, hd⟩ := List.mem_map.mp h
      exact absurd hd (by simp)
  · obtain ⟨o', ho', heq⟩ := List.mem_map.mp h
    obtain ⟨d, _, hd, hcfg⟩ := h2 (List.ne_nil_of_mem ho')
    have hne := (getList_ok d hd).1
    simp only [Effect.write.injEq] at heq
    exact Or.inr ⟨(getList d).1.Entries, hne, domains_ne_nil _ hne, by rw [← heq.1, hcfg]⟩

theorem not_mem_reloadEffects (cfg : GoString) (o : WriteOutcome) (oc : Outcome)
    (answer : Option String) : Effect.write cfg o ∉ reloadEffects oc answer := by
  rcases oc with _ | _ | err <;> simp [reloadEffects]

theorem periodicCycle_writes (t : Nat → Bool) (r : GoString) (w : World) (a : CycleAnswers)
    (hw : ∀ cfg o, Effect.write cfg o ∈ w.effects → RenderedFromEntries t r cfg) :
    ∀ cfg o, Effect.write cfg o ∈ (periodicCycle t r w a).1.effects →
      RenderedFromEntries t r cfg := by
  intro cfg o h
  rw [periodicCycle_effects] at h
  rcases List.mem_append.mp h with h | h
  · rcases write_is_rendered t r _ a cfg o h with h | h
    · exact hw cfg o h
    · exact h
  · exact absurd h (not_mem_reloadEffects cfg o _ _)

theorem startupCycle_writes (t : Nat → Bool) (r : GoString) (w : World) (a : CycleAnswers)
    (hw : ∀ cfg o, Effect.write cfg o ∈ w.effects → RenderedFromEntries t r cfg) :
    ∀ cfg o, Effect.write cfg o ∈ (startupCycle t r w a).1.effects →
      RenderedFromEntries t r cfg := by
  intro cfg o h
  rw [startupCycle_effects] at h
  rcases List.mem_append.mp h with h | h
  · rcases write_is_rendered t r _ a cfg o h with h | h
    · exact hw cfg o h
    · exact h
  · exact absurd h (not_mem_reloadEffects cfg o _ _)

theorem run_writes (t : Nat → Bool) (r : GoString) :
    ∀ (signals : List Signal) (w : World),
      (∀ cfg o, Effect.write cfg o ∈ w.effects → RenderedFromEntries t r cfg) →
      ∀ cfg o, Effect.write cfg o ∈ (run t r w signals).1.effects →
        RenderedFromEntries t r cfg := by
  intro signals
  induction signals with
  | nil => intro w hw; simpa [run] using hw
  | cons sg rest ih =>
    intro w hw
    cases sg with
    | done => simpa [run, World.info] using hw
    | tick a =>
      have hc := periodicCycle_writes t r w a hw
      rcases hp : periodicCycle t r w a with ⟨w', _ | _⟩
      · rw [hp] at hc
        simpa [run, hp] using hc
      · rw [hp] at hc
        simp only [run, hp]
        exact ih w' hc

theorem main_writes (t : Nat → Bool) (r : GoString) (file : Option GoString)
    (startup : CycleAnswers) (ticks : List CycleAnswers) :
    ∀ cfg o, Effect.write cfg o ∈ (main t r file startup ticks).1.effects →
      RenderedFromEntries t r cfg := by
  have hc := startupCycle_writes t r ⟨file, [], []⟩ startup (by simp)
  rcases hp : startupCycle t r ⟨file, [], []⟩ startup with ⟨w', _ | _⟩
  · rw [hp] at hc
    simpa [main, hp] using hc
  · rw [hp] at hc
    simp only [main, hp]
    exact run_writes t r _ w' hc

/-- C10: every text that the program passes to the file write, in the startup cycle and in
every later cycle, was rendered from the domain list of a fetched registry with at least
one entry; that list holds at least one domain, and the text is not empty and has at least
two lines. The same holds for each single call of populateConfig, whatever the fetches
answer: the writes it adds are of such texts. -/
theorem written_config_never_empty (t : Nat → Bool) (r : GoString) (file : Option GoString)
    (startup : CycleAnswers) (ticks : List CycleAnswers) (cfg : GoString) (o : WriteOutcome)
    (h : Effect.write cfg o ∈ (main t r file startup ticks).1.effects) :
    (RenderedFromEntries t r cfg ∧ cfg ≠ [] ∧ 2 ≤ lineCount cfg) ∧
    (∀ (w : World) (a : CycleAnswers) (cfg' : GoString) (o' : WriteOutcome),
      Effect.write cfg' o' ∈ (populateConfig t r w a).1.effects →
      Effect.write cfg' o' ∈ w.effects ∨
        (RenderedFromEntries t r cfg' ∧ cfg' ≠ [] ∧ 2 ≤ lineCount cfg')) := by
  refine ⟨⟨main_writes t r file startup ticks cfg o h,
    rendered_nonempty t r cfg (main_writes t r file startup ticks cfg o h)⟩, ?_⟩
  intro w a cfg' o' h'
  rcases write_is_rendered t r w a cfg' o' h' with h' | h'
  · exact Or.inl h'
  · exact Or.inr ⟨h', rendered_nonempty t r cfg' h'⟩

theorem written_config_never_empty_witness :
    Effect.write (str "local-zone: \"a.pl\" redirect\nlocal-data: \"a.pl A 10.0.0.1\"")
        WriteOutcome.written ∈
      (main (fun _ => false) (str "10.0.0.1") none reloadFailsAnswers []).1.effects ∧
    RenderedFromEntries (fun _ => false) (str "10.0.0.1")
      (str "local-zone: \"a.pl\" redirect\nlocal-data: \"a.pl A 10.0.0.1\"") ∧
    str "local-zone: \"a.pl\" redirect\nlocal-data: \"a.pl A 10.0.0.1\"" ≠ [] ∧
    2 ≤ lineCount (str "local-zone: \"a.pl\" redirect\nlocal-data: \"a.pl A 10.0.0.1\"") :=
  have hmem : Effect.write
      (str "local-zone: \"a.pl\" redirect\nlocal-data: \"a.pl A 10.0.0.1\"")
        WriteOutcome.written ∈
      (main (fun _ => false) (str "10.0.0.1") none reloadFailsAnswers []).1.effects :=
    List.mem_cons_of_mem _ (List.mem_cons_self _ _)
  ⟨hmem, (written_config_never_empty (fun _ => false) (str "10.0.0.1") none
    reloadFailsAnswers [] _ WriteOutcome.written hmem).1⟩

end RshUnbound
